import Mathlib

/-!
# Verification of the pki-signed-2fa repository against its specification

Shallow embedding of the repository's Python source (`app/crypto_utils.py`,
`app/main.py`, `scripts/generate_keys.py`, `scripts/generate_proof.py`) in
Lean 4, together with theorems settling the frozen claims C1-C10.

Bytes are modelled as `Nat` values below 256, byte strings as `List Nat`,
Python `str` as Lean `String` (ASCII fragment modelled exactly; the inputs
appearing in the claims and counterexamples are all ASCII).
-/

namespace PKI

/-! ## Python string primitives (ASCII fragment)

`str.strip()`, `str.lower()` and `int(s, 16)` as implemented by CPython,
restricted to ASCII input (CPython additionally maps non-ASCII Unicode
decimal digits and spaces; none of the strings handled here contain any).
-/

/-- ASCII whitespace characters stripped by `str.strip()` and skipped by
`int(s, base)`: space, tab, newline, vertical tab, form feed, carriage return. -/
def isPySpace (c : Char) : Bool :=
  c = ' ' ∨ c = '\t' ∨ c = '\n' ∨ c = Char.ofNat 11 ∨ c = Char.ofNat 12 ∨ c = '\r'

/-- `str.strip()` with no argument: remove leading and trailing whitespace. -/
def pyStrip (s : String) : String :=
  ⟨((s.data.dropWhile isPySpace).reverse.dropWhile isPySpace).reverse⟩

/-- ASCII `str.lower()` on one character (code points: `A`-`Z` are 65-90). -/
def pyLowerChar (c : Char) : Char :=
  if 65 ≤ c.toNat ∧ c.toNat ≤ 90 then Char.ofNat (c.toNat + 32) else c

/-- ASCII `str.lower()`. -/
def pyLower (s : String) : String :=
  ⟨s.data.map pyLowerChar⟩

/-- Is the character a hexadecimal digit `[0-9a-fA-F]`
(code points 48-57, 97-102, 65-70)? -/
def isHexDigitB (c : Char) : Bool :=
  (48 ≤ c.toNat ∧ c.toNat ≤ 57) ∨ (97 ≤ c.toNat ∧ c.toNat ≤ 102) ∨
    (65 ≤ c.toNat ∧ c.toNat ≤ 70)

/-- Numeric value of a hexadecimal digit character. -/
def hexVal (c : Char) : Nat :=
  if 48 ≤ c.toNat ∧ c.toNat ≤ 57 then c.toNat - 48
  else if 97 ≤ c.toNat ∧ c.toNat ≤ 102 then c.toNat - 97 + 10
  else c.toNat - 65 + 10

/-- Digit scanner of CPython's `PyLong_FromString` for base 16, after the
optional sign and `0x` prefix have been consumed.  `undOk` records whether an
underscore may appear next (i.e. the previous character was a digit, or we
are immediately after the base prefix); `endOk` records whether the string
may end here (at least one digit seen and the last character was a digit).
Trailing whitespace is permitted after the digits. -/
def scanHexDigits : List Char → Bool → Bool → Bool
  | [], _, endOk => endOk
  | c :: rest, undOk, endOk =>
    if isHexDigitB c then scanHexDigits rest true true
    else if c = '_' then undOk && scanHexDigits rest false false
    else endOk && isPySpace c && rest.all isPySpace

/-- Does `int(s, 16)` succeed on `s` (ASCII model of CPython's parser)?
Grammar: optional whitespace, optional sign, optional `0x`/`0X` prefix
(after which a single underscore is permitted), hex digits with single
underscores between digits, optional trailing whitespace.  In particular
`int` accepts strings such as `"0xff"`, `"+ff"` and `"f_f"` that are not
plain strings of hex digits. -/
def pyIntHexOk (s : String) : Bool :=
  let cs := s.data.dropWhile isPySpace
  let cs := match cs with
    | c :: r => if c = '+' ∨ c = '-' then r else c :: r
    | [] => []
  match cs with
  | c1 :: c2 :: rest =>
    if c1 = '0' ∧ (c2 = 'x' ∨ c2 = 'X') then scanHexDigits rest true false
    else scanHexDigits (c1 :: c2 :: rest) false false
  | cs => scanHexDigits cs false false

/-! ## `crypto_utils.validate_hex_seed`

```python
def validate_hex_seed(seed: str) -> str:
    normalized = seed.strip()
    if len(normalized) != 64:
        raise ValueError("Seed must be 64 hexadecimal characters long")
    try:
        int(normalized, 16)
    except ValueError as exc:
        raise ValueError("Seed must contain only hexadecimal characters") from exc
    return normalized.lower()
```

`none` models the raised `ValueError` (`SeedMalformed` in the spec). -/

def validate_hex_seed (seed : String) : Option String :=
  let normalized := pyStrip seed
  if normalized.length ≠ 64 then none
  else if pyIntHexOk normalized then some (pyLower normalized) else none

/-- The spec's malformed-seed predicate: does the string match
`^[0-9a-fA-F]{64}$`? -/
def matchesHexSeed64 (s : String) : Bool :=
  s.length == 64 && s.data.all isHexDigitB

/-- The input `"0x" ++ "f"*62` of length 64 that `int(.., 16)` accepts. -/
def seedWithPrefix : String :=
  "0x" ++ String.mk (List.replicate 62 'f')

/-! ## Base64 (`base64.b64encode` / `base64.b64decode`)

`b64decode` delegates to `binascii.a2b_base64` in non-strict mode, which
*silently discards* characters outside the Base64 alphabet, treats `=` as
terminating a quantum once at least two data characters of it have been
seen, and raises only when the surviving data characters do not form whole
quanta.  The encoder is `binascii.b2a_base64` (no newline): 3-byte groups
to 4 characters, final group padded with `=`. -/

/-- The Base64 character of a 6-bit value. -/
def b64EncChar (v : Nat) : Char :=
  if v < 26 then Char.ofNat ('A'.toNat + v)
  else if v < 52 then Char.ofNat ('a'.toNat + (v - 26))
  else if v < 62 then Char.ofNat ('0'.toNat + (v - 52))
  else if v = 62 then '+' else '/'

/-- The 6-bit value of a Base64 alphabet character (`none` off-alphabet);
ranges by code point: `A`-`Z` 65-90, `a`-`z` 97-122, `0`-`9` 48-57. -/
def b64DecVal (c : Char) : Option Nat :=
  if 65 ≤ c.toNat ∧ c.toNat ≤ 90 then some (c.toNat - 65)
  else if 97 ≤ c.toNat ∧ c.toNat ≤ 122 then some (c.toNat - 97 + 26)
  else if 48 ≤ c.toNat ∧ c.toNat ≤ 57 then some (c.toNat - 48 + 52)
  else if c = '+' then some 62
  else if c = '/' then some 63
  else none

/-- `base64.b64encode`, 3-byte groups to 4 characters (bit extraction
written with `/` and `%`, arithmetically identical to the C shifts). -/
def b64encodeBody : List Nat → List Char
  | b1 :: b2 :: b3 :: rest =>
    b64EncChar (b1 / 4) :: b64EncChar (b1 % 4 * 16 + b2 / 16) ::
      b64EncChar (b2 % 16 * 4 + b3 / 64) :: b64EncChar (b3 % 64) ::
      b64encodeBody rest
  | [b1, b2] =>
    [b64EncChar (b1 / 4), b64EncChar (b1 % 4 * 16 + b2 / 16),
      b64EncChar (b2 % 16 * 4), '=']
  | [b1] => [b64EncChar (b1 / 4), b64EncChar (b1 % 4 * 16), '=', '=']
  | [] => []

/-- `base64.b64encode(..).decode("ascii")` as a string. -/
def b64encodePy (bs : List Nat) : String :=
  ⟨b64encodeBody bs⟩

/-- The quantum loop of `binascii.a2b_base64` in non-strict mode.
State: `quadPos` (position inside the current 4-character quantum),
`leftchar` (bits carried between characters), `pads` (consecutive padding
characters seen at quantum position ≥ 2), accumulated output `out`.
A `=` at `quadPos ≥ 2` that completes the quantum ends decoding, ignoring
the rest of the input; characters outside the alphabet are skipped;
leftover data characters at the end (`quadPos ≠ 0`) raise. -/
def b64decodeLoop : List Char → Nat → Nat → Nat → List Nat → Option (List Nat)
  | [], quadPos, _, _, out => if quadPos = 0 then some out else none
  | c :: rest, quadPos, leftchar, pads, out =>
    if c = '=' then
      if 2 ≤ quadPos then
        if 4 ≤ quadPos + (pads + 1) then some out
        else b64decodeLoop rest quadPos leftchar (pads + 1) out
      else b64decodeLoop rest quadPos leftchar pads out
    else
      match b64DecVal c with
      | none => b64decodeLoop rest quadPos leftchar pads out
      | some v =>
        match quadPos with
        | 0 => b64decodeLoop rest 1 v 0 out
        | 1 => b64decodeLoop rest 2 (v % 16) 0 (out ++ [leftchar * 4 + v / 16])
        | 2 => b64decodeLoop rest 3 (v % 4) 0 (out ++ [leftchar * 16 + v / 4])
        | _ => b64decodeLoop rest 0 0 0 (out ++ [leftchar * 64 + v])

/-- `base64.b64decode` on a `str` argument: the argument is first encoded
as ASCII (non-ASCII characters raise), then fed to the non-strict
`a2b_base64`.  `none` models any raised exception. -/
def b64decodePy (s : String) : Option (List Nat) :=
  if s.data.all (fun c => c.toNat < 128) then b64decodeLoop s.data 0 0 0 []
  else none

/-- Is `c` in the Base64 alphabet? -/
def isB64Alpha (c : Char) : Bool :=
  (b64DecVal c).isSome

/-- The spec's notion of well-formed Base64: whole 4-character quanta of
alphabet characters, optionally ending in `xx==` or `xxx=`. -/
def isWellFormedBase64Chars : List Char → Bool
  | [] => true
  | [c1, c2, '=', '='] => isB64Alpha c1 && isB64Alpha c2
  | [c1, c2, c3, '='] => isB64Alpha c1 && isB64Alpha c2 && isB64Alpha c3
  | c1 :: c2 :: c3 :: c4 :: rest =>
    isB64Alpha c1 && isB64Alpha c2 && isB64Alpha c3 && isB64Alpha c4 &&
      isWellFormedBase64Chars rest
  | _ => false

/-- Well-formed Base64 strings, per the spec's `EncodingInvalid` contract. -/
def isWellFormedBase64 (s : String) : Bool :=
  isWellFormedBase64Chars s.data

/-! ## Bytes, hex and Base32 -/

/-- Big-endian byte string of fixed width `k` (`int.to_bytes(k, "big")`,
truncating to `k` bytes). -/
def toBytesBE : Nat → Nat → List Nat
  | 0, _ => []
  | k + 1, n => toBytesBE k (n / 256) ++ [n % 256]

/-- `bytes.fromhex`: pairs of hex digits, ASCII spaces permitted between
pairs; anything else raises (`none`). -/
def bytesFromHex : List Char → Option (List Nat)
  | [] => some []
  | c1 :: rest =>
    if c1 = ' ' then bytesFromHex rest
    else
      match rest with
      | c2 :: rest2 =>
        if isHexDigitB c1 && isHexDigitB c2 then
          (bytesFromHex rest2).map (fun bs => (16 * hexVal c1 + hexVal c2) :: bs)
        else none
      | [] => none

/-- ASCII `str.upper()` on one character. -/
def pyUpperChar (c : Char) : Char :=
  if 'a' ≤ c ∧ c ≤ 'z' then Char.ofNat (c.toNat - 32) else c

/-- The RFC 4648 Base32 character of a 5-bit value (`A`-`Z`, `2`-`7`). -/
def b32EncChar (v : Nat) : Char :=
  if v < 26 then Char.ofNat ('A'.toNat + v) else Char.ofNat ('2'.toNat + (v - 26))

/-- The 5-bit value of a Base32 alphabet character. -/
def b32DecVal (c : Char) : Option Nat :=
  if 'A' ≤ c ∧ c ≤ 'Z' then some (c.toNat - 'A'.toNat)
  else if '2' ≤ c ∧ c ≤ '7' then some (c.toNat - '2'.toNat + 26)
  else none

/-- The eight Base32 characters of one 40-bit group (big-endian 5-bit
digits, as `base64._b32encode` extracts them by shifting). -/
def b32GroupChars (c : Nat) : List Char :=
  [b32EncChar (c / 2 ^ 35 % 32), b32EncChar (c / 2 ^ 30 % 32),
    b32EncChar (c / 2 ^ 25 % 32), b32EncChar (c / 2 ^ 20 % 32),
    b32EncChar (c / 2 ^ 15 % 32), b32EncChar (c / 2 ^ 10 % 32),
    b32EncChar (c / 2 ^ 5 % 32), b32EncChar (c % 32)]

/-- Trailing `=` count of the final Base32 quantum for a leftover of
1-4 input bytes (`base64._b32encode`'s fix-up table). -/
def b32PadLen (leftover : Nat) : Nat :=
  if leftover = 1 then 6 else if leftover = 2 then 4
  else if leftover = 3 then 3 else 1

/-- `base64.b32encode`: 5-byte groups to 8 characters; the final partial
group is zero-padded, encoded, and its surplus characters replaced by `=`
(recursive formulation of the library's pad-then-loop-then-slice code,
computing the same characters). -/
def b32encodeGroups : List Nat → List Char
  | b0 :: b1 :: b2 :: b3 :: b4 :: rest =>
    b32GroupChars ((((b0 * 256 + b1) * 256 + b2) * 256 + b3) * 256 + b4) ++
      b32encodeGroups rest
  | [] => []
  | rem =>
    let padded := rem ++ List.replicate (5 - rem.length) 0
    let c := padded.foldl (fun a b => a * 256 + b) 0
    let npad := b32PadLen rem.length
    (b32GroupChars c).take (8 - npad) ++ List.replicate npad '='

/-- `base64.b32encode(..).decode("ascii")`. -/
def b32encode (bs : List Nat) : String :=
  ⟨b32encodeGroups bs⟩

/-- Accumulate 5-bit Base32 values (`acc = (acc << 5) + b32rev[c]`);
`none` on an off-alphabet character. -/
def b32AccVal : List Char → Nat → Option Nat
  | [], acc => some acc
  | c :: r, acc =>
    match b32DecVal c with
    | none => none
    | some v => b32AccVal r (acc * 32 + v)

/-- Quantum loop of `base64._b32decode` applied to the padding-stripped
string: full 8-character quanta produce 5 bytes; the final partial quantum
(left-shifted by the padding amount) produces `(43 - 5*pads) / 8` bytes. -/
def b32DecGroups : List Char → Option (List Nat)
  | [] => some []
  | c0 :: c1 :: c2 :: c3 :: c4 :: c5 :: c6 :: c7 :: rest =>
    match b32AccVal [c0, c1, c2, c3, c4, c5, c6, c7] 0 with
    | none => none
    | some acc => (b32DecGroups rest).map (fun bs => toBytesBE 5 acc ++ bs)
  | l =>
    match b32AccVal l 0 with
    | none => none
    | some acc =>
      let pads := 8 - l.length
      some ((toBytesBE 5 (acc * 2 ^ (5 * pads))).take ((43 - 5 * pads) / 8))

/-- `base64.b32decode(s, casefold=True)`: uppercase, length must be a
multiple of 8, trailing `=` count must be one of {0, 1, 3, 4, 6}, then
decode quanta (`none` models `binascii.Error`). -/
def b32decodePy (s : String) : Option (List Nat) :=
  let cs := s.data.map pyUpperChar
  if cs.length % 8 ≠ 0 then none
  else
    let stripped := (cs.reverse.dropWhile (fun c => c = '=')).reverse
    let pads := cs.length - stripped.length
    if pads = 0 ∨ pads = 1 ∨ pads = 3 ∨ pads = 4 ∨ pads = 6 then
      b32DecGroups stripped
    else none

/-- The data characters of `b32encodeGroups` (everything before the
trailing `=` padding); proof-layer decomposition of the encoder. -/
def b32encodeNoPad : List Nat → List Char
  | b0 :: b1 :: b2 :: b3 :: b4 :: rest =>
    b32GroupChars ((((b0 * 256 + b1) * 256 + b2) * 256 + b3) * 256 + b4) ++
      b32encodeNoPad rest
  | [] => []
  | rem =>
    let padded := rem ++ List.replicate (5 - rem.length) 0
    (b32GroupChars (padded.foldl (fun a b => a * 256 + b) 0)).take
      (8 - b32PadLen rem.length)

/-- Number of trailing `=` characters `b32encodeGroups` emits. -/
def b32PadOf : List Nat → Nat
  | _ :: _ :: _ :: _ :: _ :: rest => b32PadOf rest
  | [] => 0
  | rem => b32PadLen rem.length

/-! ## SHA-1 and HMAC-SHA-1 (RFC 3174 / RFC 2104)

`hashlib.sha1` / `hmac.new(key, msg, "sha1")`, over byte lists, with all
32-bit machine arithmetic made explicit as `% 2^32`. -/

/-- Truncation to a 32-bit word. -/
def w32 (x : Nat) : Nat := x % 4294967296

/-- Left-rotation of a 32-bit word (arguments below `2^32`). -/
def rotl32 (n x : Nat) : Nat :=
  x % 2 ^ (32 - n) * 2 ^ n + x / 2 ^ (32 - n)

/-- Big-endian 32-bit word from bytes. -/
def wordBE (bs : List Nat) : Nat :=
  bs.foldl (fun a b => a * 256 + b) 0

/-- SHA-1 message schedule extension:
`w[i] = rotl1 (w[i-3] xor w[i-8] xor w[i-14] xor w[i-16])`. -/
def sha1Extend : List Nat → Nat → List Nat
  | ws, 0 => ws
  | ws, k + 1 =>
    let i := ws.length
    sha1Extend (ws ++ [rotl32 1 ((ws.getD (i - 3) 0 ^^^ ws.getD (i - 8) 0) ^^^
      (ws.getD (i - 14) 0 ^^^ ws.getD (i - 16) 0))]) k

/-- SHA-1 round function. -/
def sha1F (i b c d : Nat) : Nat :=
  if i < 20 then b &&& c ||| (b ^^^ 4294967295) &&& d
  else if i < 40 then (b ^^^ c) ^^^ d
  else if i < 60 then b &&& c ||| b &&& d ||| c &&& d
  else (b ^^^ c) ^^^ d

/-- SHA-1 round constants. -/
def sha1K (i : Nat) : Nat :=
  if i < 20 then 0x5A827999
  else if i < 40 then 0x6ED9EBA1
  else if i < 60 then 0x8F1BBCDC
  else 0xCA62C1D6

/-- One SHA-1 compression of a 64-byte block into the running state. -/
def sha1Compress (h : Nat × Nat × Nat × Nat × Nat) (block : List Nat) :
    Nat × Nat × Nat × Nat × Nat :=
  let ws := sha1Extend ((List.range 16).map
    (fun i => wordBE ((block.drop (4 * i)).take 4))) 64
  let (h0, h1, h2, h3, h4) := h
  let st := (List.range 80).foldl
    (fun (st : Nat × Nat × Nat × Nat × Nat) i =>
      let (a, b, c, d, e) := st
      (w32 (rotl32 5 a + sha1F i b c d + e + sha1K i + ws.getD i 0),
        a, rotl32 30 b, c, d))
    (h0, h1, h2, h3, h4)
  let (a, b, c, d, e) := st
  (w32 (h0 + a), w32 (h1 + b), w32 (h2 + c), w32 (h3 + d), w32 (h4 + e))

/-- Merkle-Damgård padding: `0x80`, zeros, 8-byte big-endian bit length. -/
def sha1Pad (msg : List Nat) : List Nat :=
  msg ++ 128 :: List.replicate ((119 - msg.length % 64) % 64) 0 ++
    toBytesBE 8 (8 * msg.length)

/-- Split into 64-byte blocks (length is a multiple of 64 when used). -/
def chunks64 (bs : List Nat) : List (List Nat) :=
  (List.range (bs.length / 64)).map (fun i => (bs.drop (64 * i)).take 64)

/-- `hashlib.sha1(msg).digest()`: 20 bytes. -/
def sha1 (msg : List Nat) : List Nat :=
  let st := (chunks64 (sha1Pad msg)).foldl sha1Compress
    (0x67452301, 0xEFCDAB89, 0x98BADCFE, 0x10325476, 0xC3D2E1F0)
  let (h0, h1, h2, h3, h4) := st
  toBytesBE 4 h0 ++ toBytesBE 4 h1 ++ toBytesBE 4 h2 ++
    toBytesBE 4 h3 ++ toBytesBE 4 h4

/-- `hmac.new(key, msg, hashlib.sha1).digest()` (block size 64). -/
def hmacSha1 (key msg : List Nat) : List Nat :=
  let k0 := if 64 < key.length then sha1 key else key
  let k1 := k0 ++ List.replicate (64 - k0.length) 0
  sha1 (k1.map (fun b => b ^^^ 92) ++ sha1 (k1.map (fun b => b ^^^ 54) ++ msg))

/-! ## pyotp (`pyotp.TOTP(secret, digits=6, interval=30, digest="sha1")`)

`timecode` maps an integer timestamp through
`datetime.fromtimestamp`/`time.mktime` (mutually inverse for the timezone
in use) and truncates `t / 30` toward zero, i.e. `Int.div`.
`utils.strings_equal` NFKC-normalizes and constant-time-compares; on the
ASCII strings involved here it is string equality. -/

/-- `pyotp.OTP.byte_secret`: pad the Base32 secret to a multiple of 8 with
`=`, then `base64.b32decode(.., casefold=True)`. -/
def byte_secret (secret : String) : Option (List Nat) :=
  let missing := secret.length % 8
  let padded :=
    if missing ≠ 0 then secret ++ String.mk (List.replicate (8 - missing) '=')
    else secret
  b32decodePy padded

/-- `pyotp.OTP.int_to_bytestring` (8-byte big-endian counter; the moving
factor never reaches `2^64`). -/
def int_to_bytestring (i : Nat) : List Nat :=
  toBytesBE 8 i

/-- Dynamic truncation and decimal formatting of `generate_otp`:
`str(10**10 + code % 10**6)[-6:]`, i.e. the 6-digit zero-padded decimal of
`code % 10^6`. -/
def hotpFormat (h : List Nat) : String :=
  let offset := h.getD 19 0 % 16
  let code := h.getD offset 0 % 128 * 16777216 + h.getD (offset + 1) 0 * 65536 +
    h.getD (offset + 2) 0 * 256 + h.getD (offset + 3) 0
  ⟨(Nat.toDigits 10 (1000000 + code % 1000000)).drop 1⟩

/-- `pyotp.OTP.generate_otp`: raises (`none`) on a negative counter or an
undecodable secret, else the 6-digit HOTP code. -/
def generate_otp (secret : String) (input : Int) : Option String :=
  if input < 0 then none
  else
    match byte_secret secret with
    | none => none
    | some key => some (hotpFormat (hmacSha1 key (int_to_bytestring input.toNat)))

/-- `pyotp.TOTP.timecode` on an integer timestamp: `int(t / 30)`,
truncation toward zero. -/
def timecode (t : Int) : Int :=
  Int.tdiv t 30

/-- `pyotp.TOTP.at(for_time, counter_offset)`. -/
def totp_at (secret : String) (forTime offset : Int) : Option String :=
  generate_otp secret (timecode forTime + offset)

/-- `pyotp.utils.strings_equal` (ASCII: plain equality). -/
def strings_equal (a b : String) : Bool :=
  a == b

/-- The `for i in range(-w, w+1)` loop of `pyotp.TOTP.verify`: each
`self.at` call may raise (`none`), which propagates. -/
def verifyWindowLoop (secret otp : String) (clock : Nat) : List Int → Option Bool
  | [] => some false
  | i :: rest =>
    match totp_at secret clock i with
    | none => none
    | some c =>
      if strings_equal otp c then some true
      else verifyWindowLoop secret otp clock rest

/-- `pyotp.TOTP.verify(otp, valid_window)` evaluated when the wall clock
reads `clock` seconds. -/
def totp_verify (secret otp : String) (clock : Nat) (validWindow : Nat) : Option Bool :=
  if validWindow ≠ 0 then
    verifyWindowLoop secret otp clock
      ((List.range (2 * validWindow + 1)).map (fun k => (k : Int) - validWindow))
  else (totp_at secret clock 0).map (fun c => strings_equal otp c)

/-! ## `crypto_utils.hex_to_base32`, `generate_totp`, `verify_totp`

`generate_totp(seed_hex, for_time)` with the wall clock as an explicit
`clock` parameter: `for_time` is falsy when absent *or zero*, in which case
both the code and the remaining-seconds value use the wall clock. -/

def hex_to_base32 (hexstr : String) : Option String :=
  (bytesFromHex hexstr.data).map b32encode

def generate_totp (seedHex : String) (forTime : Option Int) (clock : Nat) :
    Option (String × Int) :=
  match validate_hex_seed seedHex with
  | none => none
  | some seed =>
    match hex_to_base32 seed with
    | none => none
    | some b32 =>
      let code := match forTime with
        | some t => if t ≠ 0 then totp_at b32 t 0 else totp_at b32 clock 0
        | none => totp_at b32 clock 0
      let now : Int := match forTime with
        | some t => if t ≠ 0 then t else (clock : Int)
        | none => (clock : Int)
      let remaining := 30 - now.emod 30
      let remaining := if remaining = 30 then 0 else remaining
      code.map (fun c => (c, remaining))

def verify_totp (seedHex code : String) (validWindow : Nat) (clock : Nat) :
    Option Bool :=
  match validate_hex_seed seedHex with
  | none => none
  | some seed =>
    match hex_to_base32 seed with
    | none => none
    | some b32 => totp_verify b32 code clock validWindow

/-- The HOTP code of a seed at a given counter, through the same pipeline
(`validate_hex_seed`, `hex_to_base32`, `generate_otp`) the service uses. -/
def seedCode (seedHex : String) (counter : Int) : Option String :=
  match validate_hex_seed seedHex with
  | none => none
  | some seed =>
    match hex_to_base32 seed with
    | none => none
    | some b32 => generate_otp b32 counter

/-- The spec's remaining-seconds formula: `30 - (t mod 30)`, reported as 0
on a window boundary. -/
def specRemaining (t : Int) : Int :=
  if t.emod 30 = 0 then 0 else 30 - t.emod 30

/-- The all-`a` seed (64 valid hex characters). -/
def seedA : String :=
  String.mk (List.replicate 64 'a')

/-- The spec's scenario-B seed, `"0123456789abcdef" * 4`. -/
def seedB : String :=
  "0123456789abcdef0123456789abcdef0123456789abcdef0123456789abcdef"

/-! ## SHA-256 and MGF1 (for RSA-OAEP) -/

/-- SHA-256 round constants. -/
def sha256K : List Nat :=
  [0x428a2f98, 0x71374491, 0xb5c0fbcf, 0xe9b5dba5,
   0x3956c25b, 0x59f111f1, 0x923f82a4, 0xab1c5ed5] ++
  [0xd807aa98, 0x12835b01, 0x243185be, 0x550c7dc3,
   0x72be5d74, 0x80deb1fe, 0x9bdc06a7, 0xc19bf174] ++
  [0xe49b69c1, 0xefbe4786, 0x0fc19dc6, 0x240ca1cc,
   0x2de92c6f, 0x4a7484aa, 0x5cb0a9dc, 0x76f988da] ++
  [0x983e5152, 0xa831c66d, 0xb00327c8, 0xbf597fc7,
   0xc6e00bf3, 0xd5a79147, 0x06ca6351, 0x14292967] ++
  [0x27b70a85, 0x2e1b2138, 0x4d2c6dfc, 0x53380d13,
   0x650a7354, 0x766a0abb, 0x81c2c92e, 0x92722c85] ++
  [0xa2bfe8a1, 0xa81a664b, 0xc24b8b70, 0xc76c51a3,
   0xd192e819, 0xd6990624, 0xf40e3585, 0x106aa070] ++
  [0x19a4c116, 0x1e376c08, 0x2748774c, 0x34b0bcb5,
   0x391c0cb3, 0x4ed8aa4a, 0x5b9cca4f, 0x682e6ff3] ++
  [0x748f82ee, 0x78a5636f, 0x84c87814, 0x8cc70208,
   0x90befffa, 0xa4506ceb, 0xbef9a3f7, 0xc67178f2]

/-- Right-rotation of a 32-bit word. -/
def rotr32 (n x : Nat) : Nat :=
  x / 2 ^ n + x % 2 ^ n * 2 ^ (32 - n)

/-- SHA-256 message schedule extension (48 additional words). -/
def sha256Extend : List Nat → Nat → List Nat
  | ws, 0 => ws
  | ws, k + 1 =>
    let i := ws.length
    let w15 := ws.getD (i - 15) 0
    let w2 := ws.getD (i - 2) 0
    let s0 := (rotr32 7 w15 ^^^ rotr32 18 w15) ^^^ w15 / 2 ^ 3
    let s1 := (rotr32 17 w2 ^^^ rotr32 19 w2) ^^^ w2 / 2 ^ 10
    sha256Extend (ws ++ [w32 (ws.getD (i - 16) 0 + s0 + ws.getD (i - 7) 0 + s1)]) k

/-- One SHA-256 compression of a 64-byte block. -/
def sha256Compress (h : Nat × Nat × Nat × Nat × Nat × Nat × Nat × Nat)
    (block : List Nat) : Nat × Nat × Nat × Nat × Nat × Nat × Nat × Nat :=
  let ws := sha256Extend ((List.range 16).map
    (fun i => wordBE ((block.drop (4 * i)).take 4))) 48
  let (h0, h1, h2, h3, h4, h5, h6, h7) := h
  let st := (List.range 64).foldl
    (fun (st : Nat × Nat × Nat × Nat × Nat × Nat × Nat × Nat) i =>
      let (a, b, c, d, e, f, g, hh) := st
      let s1 := (rotr32 6 e ^^^ rotr32 11 e) ^^^ rotr32 25 e
      let ch := e &&& f ^^^ (e ^^^ 4294967295) &&& g
      let t1 := w32 (hh + s1 + ch + sha256K.getD i 0 + ws.getD i 0)
      let s0 := (rotr32 2 a ^^^ rotr32 13 a) ^^^ rotr32 22 a
      let mj := a &&& b ^^^ a &&& c ^^^ b &&& c
      let t2 := w32 (s0 + mj)
      (w32 (t1 + t2), a, b, c, w32 (d + t1), e, f, g))
    (h0, h1, h2, h3, h4, h5, h6, h7)
  let (a, b, c, d, e, f, g, hh) := st
  (w32 (h0 + a), w32 (h1 + b), w32 (h2 + c), w32 (h3 + d),
    w32 (h4 + e), w32 (h5 + f), w32 (h6 + g), w32 (h7 + hh))

/-- `hashlib.sha256(msg).digest()`: 32 bytes (the Merkle-Damgård padding
is the same as SHA-1's). -/
def sha256 (msg : List Nat) : List Nat :=
  let st := (chunks64 (sha1Pad msg)).foldl sha256Compress
    (0x6a09e667, 0xbb67ae85, 0x3c6ef372, 0xa54ff53a,
      0x510e527f, 0x9b05688c, 0x1f83d9ab, 0x5be0cd19)
  let (h0, h1, h2, h3, h4, h5, h6, h7) := st
  toBytesBE 4 h0 ++ toBytesBE 4 h1 ++ toBytesBE 4 h2 ++ toBytesBE 4 h3 ++
    toBytesBE 4 h4 ++ toBytesBE 4 h5 ++ toBytesBE 4 h6 ++ toBytesBE 4 h7

/-- MGF1 with SHA-256 (RFC 8017 B.2.1): concatenated hashes of
`seed || counter`, truncated to `len` bytes. -/
def mgf1sha256 (seed : List Nat) (len : Nat) : List Nat :=
  (((List.range ((len + 31) / 32)).map
    (fun i => sha256 (seed ++ toBytesBE 4 i))).flatten).take len

/-! ## RSA-OAEP (`rsa_oaep_decrypt`, `rsa_encrypt_with_public`)

The `cryptography` library's RSA-OAEP with SHA-256 for both the hash and
MGF1, empty label, implementing RSAES-OAEP of RFC 8017.  Keys are modelled
by their numeric components plus the octet length `k` of the modulus
(which the library's key object knows as `key_size`); the PEM loading step
is outside the model.  Encryption takes the random OAEP seed as an
explicit parameter. -/

structure RSAPub where
  n : Nat
  e : Nat
  k : Nat

structure RSAPriv where
  n : Nat
  d : Nat
  k : Nat

inductive CryptoErr where
  | encodingInvalid : CryptoErr
  | decryptionFailed : CryptoErr
deriving DecidableEq

/-- OS2IP: big-endian bytes to integer. -/
def osToInt (bs : List Nat) : Nat :=
  bs.foldl (fun a b => a * 256 + b) 0

/-- Pointwise xor of byte strings. -/
def xorBytes (a b : List Nat) : List Nat :=
  List.zipWith (fun x y => x ^^^ y) a b

/-- RSAES-OAEP-ENCRYPT (SHA-256, MGF1-SHA-256, empty label) with an
explicit random seed; `none` models the "message too long" error. -/
def oaepEncrypt (key : RSAPub) (msg seed : List Nat) : Option (List Nat) :=
  if key.k < msg.length + 2 * 32 + 2 then none
  else
    let lHash := sha256 []
    let ps := List.replicate (key.k - msg.length - 2 * 32 - 2) 0
    let db := lHash ++ ps ++ 1 :: msg
    let dbMask := mgf1sha256 seed (key.k - 32 - 1)
    let maskedDB := xorBytes db dbMask
    let seedMask := mgf1sha256 maskedDB 32
    let maskedSeed := xorBytes seed seedMask
    let em := 0 :: maskedSeed ++ maskedDB
    some (toBytesBE key.k (osToInt em ^ key.e % key.n))

/-- `rsa_encrypt_with_public` after key loading: OAEP-encrypt, then Base64. -/
def rsa_encrypt_with_public (key : RSAPub) (plaintext seed : List Nat) :
    Option String :=
  (oaepEncrypt key plaintext seed).map b64encodePy

/-- RSAES-OAEP-DECRYPT (SHA-256, MGF1-SHA-256, empty label); `none` models
the opaque decryption error. -/
def oaepDecrypt (key : RSAPriv) (ct : List Nat) : Option (List Nat) :=
  if ct.length ≠ key.k ∨ key.k < 2 * 32 + 2 ∨ key.n ≤ osToInt ct then none
  else
    let em := toBytesBE key.k (osToInt ct ^ key.d % key.n)
    match em with
    | y :: rest =>
      let maskedSeed := rest.take 32
      let maskedDB := rest.drop 32
      let seedMask := mgf1sha256 maskedDB 32
      let seed := xorBytes maskedSeed seedMask
      let dbMask := mgf1sha256 seed (key.k - 32 - 1)
      let db := xorBytes maskedDB dbMask
      let lHash2 := db.take 32
      let afterPS := (db.drop 32).dropWhile (fun b => b = 0)
      match afterPS with
      | 1 :: m => if y = 0 ∧ lHash2 = sha256 [] then some m else none
      | _ => none
    | [] => none

/-- `rsa_oaep_decrypt` after key loading: Base64-decode (lenient), then
OAEP-decrypt. -/
def rsa_oaep_decrypt (key : RSAPriv) (ciphertextB64 : String) :
    Except CryptoErr (List Nat) :=
  match b64decodePy ciphertextB64 with
  | none => Except.error CryptoErr.encodingInvalid
  | some ct =>
    match oaepDecrypt key ct with
    | none => Except.error CryptoErr.decryptionFailed
    | some m => Except.ok m

/-- A stand-in private key for evaluating the Base64 stage (its numbers
are never used on the paths exercised). -/
def keyToy : RSAPriv :=
  ⟨3233, 2753, 2⟩

/-- Hex encoding of bytes (`bytes.hex()` / the counterparty's `hex(S)`),
lowercase, two digits per byte; its UTF-8 bytes are the ASCII codes. -/
def hexDigitChar (v : Nat) : Char :=
  if v < 10 then Char.ofNat (48 + v) else Char.ofNat (87 + v)

def hexOfBytes (bs : List Nat) : List Char :=
  bs.flatMap (fun b => [hexDigitChar (b / 16), hexDigitChar (b % 16)])

/-- UTF-8 bytes of an ASCII character list. -/
def asciiBytes (cs : List Char) : List Nat :=
  cs.map Char.toNat

/-- Strict UTF-8 decoding (`bytes.decode("utf-8")`); `none` models
`UnicodeDecodeError`. -/
def utf8Decode : List Nat → Option (List Char)
  | [] => some []
  | b :: rest =>
    if b < 128 then (utf8Decode rest).map (fun cs => Char.ofNat b :: cs)
    else if b < 194 then none
    else if b < 224 then
      match rest with
      | b2 :: rest2 =>
        if 128 ≤ b2 ∧ b2 < 192 then
          (utf8Decode rest2).map (fun cs => Char.ofNat ((b - 192) * 64 + (b2 - 128)) :: cs)
        else none
      | [] => none
    else if b < 240 then
      match rest with
      | b2 :: b3 :: rest3 =>
        let cp := (b - 224) * 4096 + (b2 - 128) * 64 + (b3 - 128)
        if 128 ≤ b2 ∧ b2 < 192 ∧ 128 ≤ b3 ∧ b3 < 192 ∧ 2048 ≤ cp ∧
            ¬(55296 ≤ cp ∧ cp ≤ 57343) then
          (utf8Decode rest3).map (fun cs => Char.ofNat cp :: cs)
        else none
      | _ => none
    else if b < 245 then
      match rest with
      | b2 :: b3 :: b4 :: rest4 =>
        let cp := (b - 240) * 262144 + (b2 - 128) * 4096 + (b3 - 128) * 64 + (b4 - 128)
        if 128 ≤ b2 ∧ b2 < 192 ∧ 128 ≤ b3 ∧ b3 < 192 ∧ 128 ≤ b4 ∧ b4 < 192 ∧
            65536 ≤ cp ∧ cp < 1114112 then
          (utf8Decode rest4).map (fun cs => Char.ofNat cp :: cs)
        else none
      | _ => none
    else none

/-! ## `app/main.py`: the HTTP handlers

Handlers are modelled as pure functions of the request, the server
filesystem state and the wall clock, returning the response (HTTP status
on error), the new filesystem state and the audit-log lines appended to
the cron log during the request.  `HTTPException(s)` propagates with
status `s`; any other exception becomes a 500 (FastAPI's behavior for the
`decrypt_seed` catch-all and for unhandled errors). -/

structure SrvFS where
  seedFile : Option String
  encSeedFile : Option String
  cronLog : List String
deriving DecidableEq

structure HOut (α : Type) where
  resp : Except Nat α
  fs : SrvFS
  logs : List String

/-- Python `a or b` on optional strings (`None` and `""` are falsy). -/
def orElseStr (x : Option String) (y : String) : String :=
  match x with
  | some s => if s = "" then y else s
  | none => y

/-- `_read_seed`: 500 if the seed file is missing or fails validation. -/
def _read_seed (fs : SrvFS) : Except Nat String :=
  match fs.seedFile with
  | none => Except.error 500
  | some content =>
    match validate_hex_seed (pyStrip content) with
    | none => Except.error 500
    | some s => Except.ok s

/-- `_build_totp_payload`: `{code, totp, valid_for, expires_in}` with
`totp = code` and `expires_in = valid_for`. -/
def _build_totp_payload (fs : SrvFS) (clock : Nat) :
    Except Nat (String × String × Int × Int) :=
  match _read_seed fs with
  | Except.error e => Except.error e
  | Except.ok seed =>
    match generate_totp seed none clock with
    | none => Except.error 500
    | some (code, remaining) => Except.ok (code, code, remaining, remaining)

/-- `GET /generate-2fa` (and `/generate-totp`): no filesystem mutation,
no audit log line. -/
def generate_2fa (fs : SrvFS) (clock : Nat) : HOut (String × String × Int × Int) :=
  ⟨_build_totp_payload fs clock, fs, []⟩

/-- `POST /run-totp`: the same `_build_totp_payload` call; no log. -/
def run_totp (fs : SrvFS) (clock : Nat) : HOut (String × String × Int × Int) :=
  ⟨_build_totp_payload fs clock, fs, []⟩

/-- `POST /verify-2fa`: 400 when both `code` and `totp` are missing or
empty after stripping; otherwise verifies and appends one audit line. -/
def verify_2fa (payload : Option String × Option String) (fs : SrvFS)
    (clock : Nat) : HOut (Bool × Bool) :=
  let code := pyStrip (orElseStr payload.1 (orElseStr payload.2 ""))
  if code = "" then ⟨Except.error 400, fs, []⟩
  else
    match _read_seed fs with
    | Except.error e => ⟨Except.error e, fs, []⟩
    | Except.ok seed =>
      match verify_totp seed code 1 clock with
      | none => ⟨Except.error 500, fs, []⟩
      | some result =>
        ⟨Except.ok (result, result),
          { fs with cronLog := fs.cronLog ++
            ["verify " ++ code ++ " => " ++ (if result then "True" else "False")] },
          ["verify " ++ code ++ " => " ++ (if result then "True" else "False")]⟩

/-- The decryption pipeline of `POST /decrypt-seed` on an encrypted-seed
string: RSA-OAEP decrypt, UTF-8 decode, validate, persist.  Every failure
is caught by the handler's blanket `except` and becomes a 500. -/
def decryptPipeline (es : String) (key : RSAPriv) (fs : SrvFS) : HOut Unit :=
  match rsa_oaep_decrypt key es with
  | Except.error _ => ⟨Except.error 500, fs, []⟩
  | Except.ok bytes =>
    match utf8Decode bytes with
    | none => ⟨Except.error 500, fs, []⟩
    | some plaintext =>
      match validate_hex_seed ⟨plaintext⟩ with
      | none => ⟨Except.error 500, fs, []⟩
      | some seed => ⟨Except.ok (), { fs with seedFile := some seed }, []⟩

/-- `POST /decrypt-seed`: body seed if truthy, else the encrypted-seed
file (stripped); 400 only when both are absent. -/
def decrypt_seed (body : Option (Option String)) (key : RSAPriv) (fs : SrvFS) :
    HOut Unit :=
  let bodySeed := match body with
    | none => ""
    | some p => orElseStr p ""
  if bodySeed = "" then
    match fs.encSeedFile with
    | none => ⟨Except.error 400, fs, []⟩
    | some fileContent => decryptPipeline (pyStrip fileContent) key fs
  else decryptPipeline bodySeed key fs

/-- A server state with a valid seed file and nothing else. -/
def fsSeedOnly : SrvFS :=
  ⟨some (String.mk (List.replicate 64 'a')), none, []⟩

/-- The empty server state. -/
def fsEmpty : SrvFS :=
  ⟨none, none, []⟩

/-! ## `scripts/generate_keys.py` -/

structure KeyFS where
  privFile : Option (List Nat)
  pubFile : Option (List Nat)
  privPerms : Option Nat
deriving DecidableEq

/-- `generate_keys.main()` as a function of the existing key files and the
freshly generated key material; returns the process exit status and the
final state.  When either file exists it logs and `return`s — a normal
exit with status 0 and no writes. -/
def generate_keys_main (fs : KeyFS) (privBytes pubBytes : List Nat) :
    Nat × KeyFS :=
  if fs.privFile.isSome ∨ fs.pubFile.isSome then (0, fs)
  else (0, ⟨some privBytes, some pubBytes, some 0o600⟩)

/-- A state in which the private-key file already exists. -/
def fsWithKey : KeyFS :=
  ⟨some [1], none, none⟩

/-! ## `scripts/generate_proof.py` -/

structure ProofFS where
  instructorPub : Bool
  privateKey : Bool
  commitHashFile : Option String
  proofSig : Option Nat
  proofSigEnc : Option Nat
  readme : Option Nat
  proofTar : Option (List String)
deriving DecidableEq

/-- Which I/O steps of a proof-generation run fail (git invocation,
signing/writing the signature, encrypting/writing it, writing the
summary, writing the archive). -/
structure IOOracle where
  gitFails : Bool
  signFails : Bool
  encFails : Bool
  readmeFails : Bool
  tarFails : Bool
deriving DecidableEq

/-- `generate_proof.main()`: missing key material exits 1 before any
write; each subsequent step writes its artifact unless its I/O fails, in
which case the uncaught exception aborts the run (exit 1) leaving the
artifacts already written on disk; `bundle_artifacts` archives whichever
of the four files exist. -/
def generate_proof_main (fs : ProofFS) (o : IOOracle) (commitHash : String) :
    Nat × ProofFS :=
  if ¬fs.instructorPub then (1, fs)
  else if ¬fs.privateKey then (1, fs)
  else if o.gitFails then (1, fs)
  else
    let fs1 := { fs with commitHashFile := some commitHash }
    if o.signFails then (1, fs1)
    else
      let fs2 := { fs1 with proofSig := some 1 }
      if o.encFails then (1, fs2)
      else
        let fs3 := { fs2 with proofSigEnc := some 2 }
        if o.readmeFails then (1, fs3)
        else
          let fs4 := { fs3 with readme := some 3 }
          if o.tarFails then (1, fs4)
          else
            let members :=
              (if fs4.commitHashFile.isSome then ["commit_hash.txt"] else []) ++
              (if fs4.proofSig.isSome then ["proof.sig"] else []) ++
              (if fs4.proofSigEnc.isSome then ["proof.sig.enc"] else []) ++
              (if fs4.readme.isSome then ["README_proof.txt"] else [])
            (0, { fs4 with proofTar := some members })

/-- A proof-generation state with both keys present and no artifacts. -/
def pfs0 : ProofFS :=
  ⟨true, true, none, none, none, none, none⟩

/-- The oracle under which only the signing step fails. -/
def oSignFails : IOOracle :=
  ⟨false, true, false, false, false⟩

/-! ## Modular exponentiation (for the primality certificates)

Fuel-based square-and-multiply; the fuel 600 supports every exponent below
`2^600`, far beyond the exponents appearing here. -/

def powModAux (n : Nat) : Nat → Nat → Nat → Nat
  | 0, _, _ => 1 % n
  | fuel + 1, a, b =>
    if b = 0 then 1 % n
    else
      let r := powModAux n fuel (a * a % n) (b / 2)
      if b % 2 = 1 then r * (a % n) % n else r

def powMod (a b n : Nat) : Nat :=
  powModAux n 600 a b

/-! ## A concrete valid RSA key pair (witness material)

`pWit = 3793 * 2^506 + 1` and `qWit = 3187 * 2^510 + 1` are primes of
Proth form (certified below via `lucas_primality`); `dWit` is the inverse
of 65537 modulo `lcm(pWit - 1, qWit - 1)`, and `nWit = pWit * qWit` has
exactly 130 octets. -/

def pWit : Nat := 3793 * 2 ^ 506 + 1

def qWit : Nat := 3187 * 2 ^ 510 + 1

def nWit : Nat := pWit * qWit

def eWit : Nat := 65537

def dWit : Nat := 27637775938040725490702787495597779554997320064412073009765262237873818735688922341562777036742709920183318548307815697672673151574279748542938041267882161012737

end PKI

namespace PKI

/-! # Theorems

Helper lemmas, then one theorem per claim (with witnesses and
counterexamples as required). -/

/-- `Char.ofNat` of a small scalar value is that value. -/
theorem toNat_ofNat_small {n : Nat} (h : n < 55296) : (Char.ofNat n).toNat = n := by
  unfold Char.ofNat
  rw [dif_pos (Or.inl h)]
  rfl

/-- A hex digit is not Python whitespace. -/
theorem hex_not_space {c : Char} (h : isHexDigitB c = true) : isPySpace c = false := by
  simp only [isHexDigitB, decide_eq_true_eq] at h
  simp only [isPySpace, decide_eq_false_iff_not]
  rintro (rfl | rfl | rfl | rfl | rfl | rfl) <;> revert h <;> decide

/-- The digit scanner accepts any string of hex digits (nonempty, or with
the end already legitimate). -/
theorem scanHexDigits_all_hex :
    ∀ (l : List Char) (u e : Bool), l.all isHexDigitB = true →
      (e = true ∨ l ≠ []) → scanHexDigits l u e = true := by
  intro l
  induction l with
  | nil =>
    intro u e _ he
    rcases he with rfl | hne
    · rfl
    · exact absurd rfl hne
  | cons c rest ih =>
    intro u e h _
    simp only [List.all_cons, Bool.and_eq_true] at h
    unfold scanHexDigits
    rw [if_pos h.1]
    exact ih true true h.2 (Or.inl rfl)

/-- A string matching `^[0-9a-fA-F]{64}$` after trimming passes
`validate_hex_seed`, which returns its lowercased trimmed form. -/
theorem validate_hex_seed_of_matches (s : String)
    (h : matchesHexSeed64 (pyStrip s) = true) :
    validate_hex_seed s = some (pyLower (pyStrip s)) := by
  have hlen : (pyStrip s).data.length = 64 := by
    simp only [matchesHexSeed64, Bool.and_eq_true, beq_iff_eq] at h
    exact h.1
  have hall : (pyStrip s).data.all isHexDigitB = true := by
    simp only [matchesHexSeed64, Bool.and_eq_true] at h
    exact h.2
  have hok : pyIntHexOk (pyStrip s) = true := by
    obtain ⟨c1, l1, e1⟩ : ∃ c1 l1, (pyStrip s).data = c1 :: l1 := by
      cases hd : (pyStrip s).data with
      | nil => rw [hd] at hlen; cases hlen
      | cons a b => exact ⟨a, b, rfl⟩
    obtain ⟨c2, l2, e2⟩ : ∃ c2 l2, l1 = c2 :: l2 := by
      cases hd : l1 with
      | nil => rw [e1, hd] at hlen; cases hlen
      | cons a b => exact ⟨a, b, rfl⟩
    have hstr : pyStrip s = ⟨c1 :: c2 :: l2⟩ := by
      cases hps : pyStrip s with
      | mk d =>
        rw [hps] at e1
        simp only [] at e1
        rw [e1, e2]
    rw [hstr] at hall
    simp only [List.all_cons, Bool.and_eq_true] at hall
    obtain ⟨h1, h2, hrest⟩ := hall
    have hns : ¬(c1 = '+' ∨ c1 = '-') := by
      rintro (rfl | rfl) <;> revert h1 <;> decide
    have hnx : ¬(c1 = '0' ∧ (c2 = 'x' ∨ c2 = 'X')) := by
      rintro ⟨-, rfl | rfl⟩ <;> revert h2 <;> decide
    rw [hstr]
    unfold pyIntHexOk
    simp only [List.dropWhile_cons, hex_not_space h1, Bool.false_eq_true, if_false,
      if_neg hns, if_neg hnx]
    refine scanHexDigits_all_hex _ false false ?_ (Or.inr (by simp))
    simp only [List.all_cons, Bool.and_eq_true]
    exact ⟨h1, h2, hrest⟩
  unfold validate_hex_seed
  have hlen' : (pyStrip s).length = 64 := hlen
  rw [if_neg (by rw [hlen']; simp), if_pos hok]

/-- C1.  The claim says `validate_hex_seed` rejects exactly the strings
not matching `^[0-9a-fA-F]{64}$` after trimming.  The code checks the
alphabet with `int(normalized, 16)`, which also accepts a `0x`/`0X`
prefix, a leading sign and underscores between digits.  `"0x" + "f"*62`
(64 characters, not all hex) is accepted and returned unchanged, in
contradiction with the function's own docstring and error message
("Seed must contain only hexadecimal characters"); `"g"*64` is rejected
as the claim says. -/
theorem validate_hex_seed_accepts_nonhex :
    validate_hex_seed seedWithPrefix = some seedWithPrefix ∧
    matchesHexSeed64 (pyStrip seedWithPrefix) = false ∧
    validate_hex_seed (String.mk (List.replicate 64 'g')) = none := by
  exact ⟨by decide, by decide, by decide⟩

/-! ### Base32: encoding always decodes (`byte_secret ∘ hex_to_base32` succeeds) -/

/-- Every encoded character decodes. -/
theorem b32tab_isSome : ∀ v, v < 32 → (b32DecVal (b32EncChar v)).isSome = true := by
  decide

/-- Encoded characters are unaffected by `str.upper()`. -/
theorem b32upper_eq : ∀ v, v < 32 → pyUpperChar (b32EncChar v) = b32EncChar v := by
  decide

/-- Encoded characters are never padding. -/
theorem b32ne_pad : ∀ v, v < 32 → b32EncChar v ≠ '=' := by
  decide

/-- Characters of an encoded 40-bit group are encode-table values. -/
theorem b32GroupChars_mem {c : Nat} {ch : Char} (h : ch ∈ b32GroupChars c) :
    ∃ v, v < 32 ∧ ch = b32EncChar v := by
  simp only [b32GroupChars, List.mem_cons, List.not_mem_nil, or_false] at h
  rcases h with rfl | rfl | rfl | rfl | rfl | rfl | rfl | rfl
  all_goals exact ⟨_, Nat.mod_lt _ (by norm_num), rfl⟩

/-- Characters of the unpadded encoding are encode-table values. -/
theorem b32encodeNoPad_alpha :
    ∀ (bs : List Nat) (ch : Char), ch ∈ b32encodeNoPad bs →
      ∃ v, v < 32 ∧ ch = b32EncChar v := by
  intro bs
  induction bs using b32encodeNoPad.induct with
  | case1 b0 b1 b2 b3 b4 rest ih =>
    intro ch h
    rw [b32encodeNoPad] at h
    rcases List.mem_append.mp h with hg | hr
    · exact b32GroupChars_mem hg
    · exact ih ch hr
  | case2 =>
    intro ch h
    simp [b32encodeNoPad] at h
  | case3 rem h1 h2 =>
    intro ch h
    rw [b32encodeNoPad] at h
    · exact b32GroupChars_mem (List.mem_of_mem_take h)
    · exact h1
    · exact h2

/-- The encoder output splits as data characters plus trailing padding. -/
theorem b32encodeGroups_split :
    ∀ bs : List Nat, b32encodeGroups bs =
      b32encodeNoPad bs ++ List.replicate (b32PadOf bs) '=' := by
  intro bs
  induction bs using b32encodeGroups.induct with
  | case1 b0 b1 b2 b3 b4 rest ih =>
    rw [b32encodeGroups, b32encodeNoPad, b32PadOf, ih, List.append_assoc]
  | case2 => rfl
  | case3 rem h1 h2 =>
    rw [b32encodeGroups, b32encodeNoPad, b32PadOf]
    all_goals first
      | rfl
      | exact h1
      | exact h2

/-- Data characters and padding fill whole 8-character quanta. -/
theorem b32encode_len_mod8 :
    ∀ bs : List Nat, ((b32encodeNoPad bs).length + b32PadOf bs) % 8 = 0 := by
  intro bs
  induction bs using b32encodeNoPad.induct with
  | case1 b0 b1 b2 b3 b4 rest ih =>
    rw [b32encodeNoPad, b32PadOf, List.length_append]
    have hg : (b32GroupChars ((((b0 * 256 + b1) * 256 + b2) * 256 + b3) * 256 + b4)).length = 8 := by
      simp [b32GroupChars]
    omega
  | case2 => rfl
  | case3 rem h1 h2 =>
    rcases rem with _ | ⟨a, _ | ⟨b, _ | ⟨c, _ | ⟨d, _ | ⟨e, r⟩⟩⟩⟩⟩
    · exact absurd rfl h2
    all_goals simp [b32encodeNoPad, b32PadOf, b32GroupChars, b32PadLen]
    exact absurd rfl (h1 a b c d e r)

/-- The padding count is one of the valid quantum paddings. -/
theorem b32PadOf_valid :
    ∀ bs : List Nat, b32PadOf bs = 0 ∨ b32PadOf bs = 1 ∨ b32PadOf bs = 3 ∨
      b32PadOf bs = 4 ∨ b32PadOf bs = 6 := by
  intro bs
  induction bs using b32PadOf.induct with
  | case1 b0 b1 b2 b3 b4 rest ih => rw [b32PadOf]; exact ih
  | case2 => exact Or.inl rfl
  | case3 rem h1 h2 =>
    rcases rem with _ | ⟨a, _ | ⟨b, _ | ⟨c, _ | ⟨d, _ | ⟨e, r⟩⟩⟩⟩⟩
    · exact absurd rfl h2
    all_goals simp [b32PadOf, b32PadLen]
    exact absurd rfl (h1 a b c d e r)

/-- Stripping trailing `=` from padded data recovers the data. -/
theorem strip_trailing_pads (l : List Char) (p : Nat) (hl : ∀ c ∈ l, c ≠ '=') :
    ((l ++ List.replicate p '=').reverse.dropWhile (fun c => c = '=')).reverse = l := by
  rw [List.reverse_append, List.reverse_replicate]
  have hrep : List.dropWhile (fun c => decide (c = '='))
      (List.replicate p '=' ++ l.reverse) =
      List.dropWhile (fun c => decide (c = '=')) l.reverse := by
    induction p with
    | zero => rfl
    | succ q ih => simp [List.replicate_succ, List.dropWhile, ih]
  rw [hrep]
  cases hrev : l.reverse with
  | nil =>
    have : l = [] := by simpa using congrArg List.reverse hrev
    simp [this]
  | cons c t =>
    have hc : c ∈ l := by
      have : c ∈ l.reverse := by rw [hrev]; exact List.mem_cons_self c t
      simpa using this
    have : List.dropWhile (fun c => decide (c = '=')) (c :: t) = c :: t := by
      simp [List.dropWhile, hl c hc]
    rw [this, ← hrev, List.reverse_reverse]

/-- The decode table inverts the encode table. -/
theorem b32tab_val : ∀ v, v < 32 → b32DecVal (b32EncChar v) = some v := by
  decide

/-- Unconditional form on residues. -/
theorem b32tab_mod (x : Nat) : b32DecVal (b32EncChar (x % 32)) = some (x % 32) :=
  b32tab_val (x % 32) (Nat.mod_lt _ (by norm_num))

/-- Accumulation succeeds on decodable characters. -/
theorem b32AccVal_isSome :
    ∀ (l : List Char), (∀ c ∈ l, (b32DecVal c).isSome = true) →
      ∀ acc, ∃ v, b32AccVal l acc = some v := by
  intro l
  induction l with
  | nil => exact fun _ acc => ⟨acc, rfl⟩
  | cons c t ih =>
    intro h acc
    have hc := h c (List.mem_cons_self c t)
    obtain ⟨w, hw⟩ := Option.isSome_iff_exists.mp hc
    rw [b32AccVal, hw]
    exact ih (fun d hd => h d (List.mem_cons_of_mem c hd)) _

/-- Decoding the unpadded encoding succeeds. -/
theorem b32DecGroups_noPad :
    ∀ bs : List Nat, ∃ out, b32DecGroups (b32encodeNoPad bs) = some out := by
  intro bs
  induction bs using b32encodeNoPad.induct with
  | case1 b0 b1 b2 b3 b4 rest ih =>
    rw [b32encodeNoPad]
    obtain ⟨out, hout⟩ := ih
    simp only [b32GroupChars, List.cons_append, List.nil_append]
    rw [b32DecGroups]
    simp only [b32AccVal, b32tab_mod]
    rw [hout]
    exact ⟨_, rfl⟩
  | case2 => exact ⟨[], rfl⟩
  | case3 rem h1 h2 =>
    rcases rem with _ | ⟨a, _ | ⟨b, _ | ⟨c, _ | ⟨d, _ | ⟨e, r⟩⟩⟩⟩⟩
    · exact absurd rfl h2
    · simp only [b32encodeNoPad, b32PadLen, b32GroupChars]
      norm_num
      rw [b32DecGroups]
      · simp only [b32AccVal, b32tab_mod]
        exact ⟨_, rfl⟩
      · intro h
        have hl := congrArg List.length h
        simp only [List.length_cons, List.length_nil] at hl
        omega
      · intro c0 c1 c2 c3 c4 c5 c6 c7 rest h
        have hl := congrArg List.length h
        simp only [List.length_cons, List.length_nil] at hl
        omega
    · simp only [b32encodeNoPad, b32PadLen, b32GroupChars]
      norm_num
      rw [b32DecGroups]
      · simp only [b32AccVal, b32tab_mod]
        exact ⟨_, rfl⟩
      · intro h
        have hl := congrArg List.length h
        simp only [List.length_cons, List.length_nil] at hl
        omega
      · intro c0 c1 c2 c3 c4 c5 c6 c7 rest h
        have hl := congrArg List.length h
        simp only [List.length_cons, List.length_nil] at hl
        omega
    · simp only [b32encodeNoPad, b32PadLen, b32GroupChars]
      norm_num
      rw [b32DecGroups]
      · simp only [b32AccVal, b32tab_mod]
        exact ⟨_, rfl⟩
      · intro h
        have hl := congrArg List.length h
        simp only [List.length_cons, List.length_nil] at hl
        omega
      · intro c0 c1 c2 c3 c4 c5 c6 c7 rest h
        have hl := congrArg List.length h
        simp only [List.length_cons, List.length_nil] at hl
        omega
    · simp only [b32encodeNoPad, b32PadLen, b32GroupChars]
      norm_num
      rw [b32DecGroups]
      · simp only [b32AccVal, b32tab_mod]
        exact ⟨_, rfl⟩
      · intro h
        have hl := congrArg List.length h
        simp only [List.length_cons, List.length_nil] at hl
        omega
      · intro c0 c1 c2 c3 c4 c5 c6 c7 rest h
        have hl := congrArg List.length h
        simp only [List.length_cons, List.length_nil] at hl
        omega
    · exact absurd rfl (h1 a b c d e r)

/-- Decoding an encoded Base32 string succeeds. -/
theorem b32decodePy_encode (bs : List Nat) :
    ∃ out, b32decodePy (b32encode bs) = some out := by
  obtain ⟨out, hout⟩ := b32DecGroups_noPad bs
  refine ⟨out, ?_⟩
  have hnp : ∀ ch ∈ b32encodeNoPad bs, ch ≠ '=' := by
    intro ch hch
    obtain ⟨v, hv, rfl⟩ := b32encodeNoPad_alpha bs ch hch
    exact b32ne_pad v hv
  have hdata : (b32encode bs).data =
      b32encodeNoPad bs ++ List.replicate (b32PadOf bs) '=' := by
    show b32encodeGroups bs = _
    exact b32encodeGroups_split bs
  have hmap : (b32encodeNoPad bs ++ List.replicate (b32PadOf bs) '=').map pyUpperChar
      = b32encodeNoPad bs ++ List.replicate (b32PadOf bs) '=' := by
    rw [List.map_append, List.map_replicate]
    congr 1
    · calc (b32encodeNoPad bs).map pyUpperChar
          = (b32encodeNoPad bs).map id := by
            apply List.map_congr_left
            intro ch hch
            obtain ⟨v, hv, rfl⟩ := b32encodeNoPad_alpha bs ch hch
            exact b32upper_eq v hv
        _ = b32encodeNoPad bs := List.map_id _
  have hlen : (b32encodeNoPad bs ++ List.replicate (b32PadOf bs) '=').length % 8 = 0 := by
    rw [List.length_append, List.length_replicate]
    exact b32encode_len_mod8 bs
  have hstrip := strip_trailing_pads (b32encodeNoPad bs) (b32PadOf bs) hnp
  have hlen' : ((b32encodeNoPad bs).length + b32PadOf bs) % 8 = 0 :=
    b32encode_len_mod8 bs
  unfold b32decodePy
  rw [hdata, hmap]
  simp only [ne_eq, List.length_append, List.length_replicate, hlen',
    not_true_eq_false, if_false, ite_false, hstrip, Nat.add_sub_cancel_left,
    eq_true (b32PadOf_valid bs), if_true, ite_true, hout]

/-- `pyotp`'s `byte_secret` succeeds on any encoded Base32 secret (its
length is already a multiple of 8, so no extra padding is added). -/
theorem byte_secret_encode (bs : List Nat) :
    ∃ k, byte_secret (b32encode bs) = some k := by
  obtain ⟨out, hout⟩ := b32decodePy_encode bs
  refine ⟨out, ?_⟩
  have hlen8 : (b32encode bs).length % 8 = 0 := by
    show (b32encodeGroups bs).length % 8 = 0
    rw [b32encodeGroups_split bs]
    rw [List.length_append, List.length_replicate]
    exact b32encode_len_mod8 bs
  unfold byte_secret
  simp only [hlen8, ne_eq, not_true_eq_false, not_false_eq_true, if_false, ite_false]
  exact hout

/-! ### Hex seeds decode to bytes -/

/-- Hex digits have value below 16. -/
theorem hexVal_lt {c : Char} (h : isHexDigitB c = true) : hexVal c < 16 := by
  simp only [isHexDigitB, decide_eq_true_eq] at h
  unfold hexVal
  split
  · omega
  · split <;> omega

/-- Lowercasing preserves hex digits. -/
theorem pyLowerChar_hex {c : Char} (h : isHexDigitB c = true) :
    isHexDigitB (pyLowerChar c) = true := by
  simp only [isHexDigitB, decide_eq_true_eq] at h ⊢
  unfold pyLowerChar
  split
  · rw [toNat_ofNat_small (by omega)]
    omega
  · omega

/-- `bytes.fromhex` succeeds on an even-length string of hex digits. -/
theorem bytesFromHex_hex :
    ∀ (n : Nat) (l : List Char), l.length ≤ n → l.all isHexDigitB = true →
      l.length % 2 = 0 → ∃ bs, bytesFromHex l = some bs := by
  intro n
  induction n with
  | zero =>
    intro l hl _ _
    have : l = [] := List.length_eq_zero.mp (Nat.le_zero.mp hl)
    exact ⟨[], by rw [this]; rfl⟩
  | succ m ih =>
    intro l hl hall hev
    cases l with
    | nil => exact ⟨[], rfl⟩
    | cons c1 rest =>
      simp only [List.all_cons, Bool.and_eq_true] at hall
      have hns : ¬(c1 = ' ') := by
        rintro rfl
        exact absurd hall.1 (by decide)
      cases rest with
      | nil => simp at hev
      | cons c2 rest2 =>
        simp only [List.all_cons, Bool.and_eq_true] at hall
        obtain ⟨h1, h2, hrest⟩ := hall
        obtain ⟨bs, hbs⟩ := ih rest2 (by simp at hl ⊢; omega)
          hrest (by simp at hev ⊢; omega)
        refine ⟨(16 * hexVal c1 + hexVal c2) :: bs, ?_⟩
        rw [bytesFromHex, if_neg hns]
        rw [if_pos (by rw [h1, h2]; rfl), hbs]
        rfl

/-- Full pipeline success: a spec-valid seed validates, converts to
Base32, and yields an HMAC key via `byte_secret`. -/
theorem seed_chain (seed : String) (hs : matchesHexSeed64 (pyStrip seed) = true) :
    ∃ bs key, validate_hex_seed seed = some (pyLower (pyStrip seed)) ∧
      hex_to_base32 (pyLower (pyStrip seed)) = some (b32encode bs) ∧
      byte_secret (b32encode bs) = some key := by
  have hv := validate_hex_seed_of_matches seed hs
  simp only [matchesHexSeed64, Bool.and_eq_true, beq_iff_eq] at hs
  have hall2 : ((pyStrip seed).data.map pyLowerChar).all isHexDigitB = true := by
    rw [List.all_eq_true]
    intro c hc
    obtain ⟨d, hd, rfl⟩ := List.mem_map.mp hc
    exact pyLowerChar_hex (List.all_eq_true.mp hs.2 d hd)
  have hlen2 : ((pyStrip seed).data.map pyLowerChar).length = 64 := by
    rw [List.length_map]
    exact hs.1
  obtain ⟨bs, hbs⟩ := bytesFromHex_hex 64 _ (le_of_eq hlen2) hall2
    (by rw [hlen2])
  obtain ⟨key, hkey⟩ := byte_secret_encode bs
  refine ⟨bs, key, hv, ?_, hkey⟩
  unfold hex_to_base32
  have hd : (pyLower (pyStrip seed)).data = (pyStrip seed).data.map pyLowerChar := rfl
  rw [hd, hbs]
  rfl

/-! ### Evaluating `generate_totp` under the success chain -/

/-- `generate_totp` with a positive `for_time` returns the HOTP code of
counter `t tdiv 30` and the remaining-seconds value computed from `t`. -/
theorem generate_totp_pos (seed : String) (bs key : List Nat)
    (hval : validate_hex_seed seed = some (pyLower (pyStrip seed)))
    (hb32 : hex_to_base32 (pyLower (pyStrip seed)) = some (b32encode bs))
    (hkey : byte_secret (b32encode bs) = some key)
    (t : Int) (ht : 0 < t) (clock : Nat) :
    generate_totp seed (some t) clock =
      some (hotpFormat (hmacSha1 key (int_to_bytestring (Int.tdiv t 30).toNat)),
        specRemaining t) := by
  have hne : t ≠ 0 := by omega
  have hnn : ¬(Int.tdiv t 30 + 0 < 0) := by
    have := Int.tdiv_nonneg (by omega : (0:Int) ≤ t) (by omega : (0:Int) ≤ 30)
    omega
  simp only [generate_totp, hval, hb32, if_pos hne, totp_at, generate_otp,
    timecode, if_neg hnn, hkey, Option.map_some]
  have hrem : (if 30 - t.emod 30 = 30 then (0:Int) else 30 - t.emod 30) =
      specRemaining t := by
    have h0 : 0 ≤ t.emod 30 := Int.emod_nonneg t (by omega)
    have h1 : t.emod 30 < 30 := Int.emod_lt_of_pos t (by omega)
    unfold specRemaining
    split <;> split <;> omega
  rw [hrem]
  have harg : Int.tdiv t 30 + 0 = Int.tdiv t 30 := by omega
  rw [harg]
  rfl

/-- `generate_totp` at a natural-number time `t`, evaluated in a world
whose wall clock also reads `t`: the code is the HOTP code of counter
`t / 30` (also when `t = 0`, via the wall-clock fallback). -/
theorem generate_totp_natspec (seed : String) (bs key : List Nat)
    (hval : validate_hex_seed seed = some (pyLower (pyStrip seed)))
    (hb32 : hex_to_base32 (pyLower (pyStrip seed)) = some (b32encode bs))
    (hkey : byte_secret (b32encode bs) = some key)
    (t : Nat) :
    generate_totp seed (some (t : Int)) t =
      some (hotpFormat (hmacSha1 key (int_to_bytestring (t / 30))),
        specRemaining (t : Int)) := by
  rcases Nat.eq_zero_or_pos t with rfl | hp
  · simp only [generate_totp, hval, hb32, Nat.cast_zero, ne_eq,
      not_true_eq_false, if_false, ite_false, totp_at, generate_otp, timecode,
      hkey, specRemaining]
    norm_num
  · have h := generate_totp_pos seed bs key hval hb32 hkey (t : Int)
      (by exact_mod_cast hp) t
    rw [h]
    have hcast : ((t : Int).tdiv 30).toNat = t / 30 := by
      have h2 : (t : Int).tdiv 30 = ((t / 30 : Nat) : Int) := rfl
      rw [h2]
      omega
    rw [hcast]

/-- C9 counterexample. -/
theorem generate_totp_remaining_at_zero :
    (generate_totp seedA (some 0) 7).map Prod.snd = some 23 ∧
    specRemaining 0 = 0 ∧ (23 : Int) ≠ 0 := by
  refine ⟨by decide, by decide, by decide⟩

/-- C9 amended theorem. -/
theorem generate_totp_remaining (seed : String) (t : Int) (clock : Nat)
    (hs : matchesHexSeed64 (pyStrip seed) = true) (ht : 0 < t) :
    (generate_totp seed (some t) clock).map Prod.snd = some (specRemaining t) := by
  obtain ⟨bs, key, hval, hb32, hkey⟩ := seed_chain seed hs
  rw [generate_totp_pos seed bs key hval hb32 hkey t ht clock]
  rfl

/-- C9 witness. -/
theorem generate_totp_remaining_witness :
    (generate_totp seedA (some 1700000000) 0).map Prod.snd =
      some (specRemaining 1700000000) :=
  generate_totp_remaining seedA 1700000000 0 (by decide) (by decide)

/-- C10 theorem. -/
theorem generate_totp_zero_wallclock :
    (∀ seed clock, generate_totp seed (some 0) clock = generate_totp seed none clock) ∧
    (generate_totp seedA (some 0) 7).map Prod.snd = some 23 ∧
    (generate_totp seedA (some 0) 8).map Prod.snd = some 22 ∧
    generate_totp seedA (some 0) 7 ≠ generate_totp seedA (some 0) 8 := by
  refine ⟨?_, by decide, by decide, ?_⟩
  · intro seed clock
    unfold generate_totp
    cases validate_hex_seed seed with
    | none => rfl
    | some s =>
      cases hex_to_base32 s with
      | none => rfl
      | some b32 => norm_num
  · intro h
    have h2 := congrArg (Option.map Prod.snd) h
    rw [(by decide : (generate_totp seedA (some 0) 7).map Prod.snd = some 23),
      (by decide : (generate_totp seedA (some 0) 8).map Prod.snd = some 22)] at h2
    cases h2

/-! ### `verify_totp`: window acceptance -/

/-- Unrolling the three-iteration verification loop for `valid_window=1`. -/
theorem verifyLoop3 (secret otp : String) (clk : Nat) (x y z : String)
    (h1 : totp_at secret clk (-1) = some x)
    (h2 : totp_at secret clk 0 = some y)
    (h3 : totp_at secret clk 1 = some z) :
    (verifyWindowLoop secret otp clk [-1, 0, 1] = some true ↔
      (otp = x ∨ otp = y ∨ otp = z)) := by
  by_cases hx : otp = x <;> by_cases hy : otp = y <;> by_cases hz : otp = z <;>
    simp [verifyWindowLoop, h1, h2, h3, strings_equal, hx, hy, hz]

/-- C2 amended theorem: with the wall clock at `t'` at least 30 (so that
all three candidate counters are nonnegative and `pyotp` does not raise),
a code generated at time `t` verifies whenever `|t' - t| ≤ 30`; at
`|t' - t| ≥ 61` it verifies exactly when the 6-digit code of one of the
three counters around `t'` — all of them different from `t`'s counter —
collides with the generated code. -/
theorem verify_totp_window (seed : String) (t tp : Nat) (c : String) (r : Int)
    (hs : matchesHexSeed64 (pyStrip seed) = true)
    (htp : 30 ≤ tp)
    (hgen : generate_totp seed (some (t : Int)) t = some (c, r)) :
    ((tp ≤ t + 30 ∧ t ≤ tp + 30) → verify_totp seed c 1 tp = some true) ∧
    ((t + 61 ≤ tp ∨ tp + 61 ≤ t) →
      (verify_totp seed c 1 tp = some true ↔
        ∃ j : Nat, tp / 30 - 1 ≤ j ∧ j ≤ tp / 30 + 1 ∧ j ≠ t / 30 ∧
          seedCode seed (j : Int) = some c)) := by
  obtain ⟨bs, key, hval, hb32, hkey⟩ := seed_chain seed hs
  have hgen' := generate_totp_natspec seed bs key hval hb32 hkey t
  rw [hgen] at hgen'
  simp only [Option.some.injEq, Prod.mk.injEq] at hgen'
  have hc : c = hotpFormat (hmacSha1 key (int_to_bytestring (t / 30))) :=
    hgen'.1
  have hdiv1 : 1 ≤ tp / 30 := by omega
  have hat : ∀ (i : Int) (j : Nat), ((tp / 30 : Nat) : Int) + i = (j : Int) →
      totp_at (b32encode bs) (tp : Int) i =
        some (hotpFormat (hmacSha1 key (int_to_bytestring j))) := by
    intro i j hij
    have htc : timecode (tp : Int) = ((tp / 30 : Nat) : Int) := rfl
    have hnn : ¬(((tp / 30 : Nat) : Int) + i < 0) := by omega
    simp only [totp_at, generate_otp, htc, if_neg hnn, hkey, hij]
    simp
  have h1 := hat (-1) (tp / 30 - 1) (by omega)
  have h2 := hat 0 (tp / 30) (by omega)
  have h3 := hat 1 (tp / 30 + 1) (by omega)
  have hsc : ∀ j : Nat, seedCode seed (j : Int) =
      some (hotpFormat (hmacSha1 key (int_to_bytestring j))) := by
    intro j
    have hnn : ¬((j : Int) < 0) := by omega
    simp only [seedCode, hval, hb32, generate_otp, if_neg hnn, hkey]
    simp
  have hoff : ((List.range (2 * 1 + 1)).map (fun k => (k : Int) - (1 : Nat))) =
      [-1, 0, 1] := by decide
  have hver : verify_totp seed c 1 tp =
      verifyWindowLoop (b32encode bs) c tp [-1, 0, 1] := by
    simp only [verify_totp, hval, hb32, totp_verify, ne_eq,
      one_ne_zero, not_false_eq_true, if_true, ite_true, hoff]
  have hloop := verifyLoop3 (b32encode bs) c tp _ _ _ h1 h2 h3
  constructor
  · rintro ⟨ha, hb⟩
    rw [hver]
    apply hloop.mpr
    have hj : t / 30 = tp / 30 - 1 ∨ t / 30 = tp / 30 ∨ t / 30 = tp / 30 + 1 := by
      omega
    rcases hj with h | h | h
    · exact Or.inl (by rw [hc, h])
    · exact Or.inr (Or.inl (by rw [hc, h]))
    · exact Or.inr (Or.inr (by rw [hc, h]))
  · intro hd
    rw [hver, hloop]
    constructor
    · rintro (he | he | he)
      · exact ⟨tp / 30 - 1, by omega, by omega, by omega, by rw [hsc, ← he]⟩
      · exact ⟨tp / 30, by omega, by omega, by omega, by rw [hsc, ← he]⟩
      · exact ⟨tp / 30 + 1, by omega, by omega, by omega, by rw [hsc, ← he]⟩
    · rintro ⟨j, hj1, hj2, hjne, hjc⟩
      rw [hsc j] at hjc
      have hfc : hotpFormat (hmacSha1 key (int_to_bytestring j)) = c :=
        Option.some.inj hjc
      have hjcases : j = tp / 30 - 1 ∨ j = tp / 30 ∨ j = tp / 30 + 1 := by omega
      rcases hjcases with rfl | rfl | rfl
      · exact Or.inl hfc.symm
      · exact Or.inr (Or.inl hfc.symm)
      · exact Or.inr (Or.inr hfc.symm)

set_option maxRecDepth 4000000 in
set_option maxHeartbeats 8000000 in
/-- C2 witness: the amended theorem applied at the all-`a` seed,
`t = 40`, `t' = 50`, whose generated code is `"271882"`. -/
theorem verify_totp_window_witness :
    ((50 ≤ 40 + 30 ∧ 40 ≤ 50 + 30) → verify_totp seedA "271882" 1 50 = some true) ∧
    ((40 + 61 ≤ 50 ∨ 50 + 61 ≤ 40) →
      (verify_totp seedA "271882" 1 50 = some true ↔
        ∃ j : Nat, 50 / 30 - 1 ≤ j ∧ j ≤ 50 / 30 + 1 ∧ j ≠ 40 / 30 ∧
          seedCode seedA (j : Int) = some "271882")) := by
  have h := verify_totp_window seedA 40 50 "271882" 20 (by decide) (by decide)
    (by decide)
  exact h

set_option maxRecDepth 4000000 in
set_option maxHeartbeats 8000000 in
/-- C2 counterexample: for the spec's scenario-B seed, the code generated
at `t = 1032839` still verifies 61 seconds later, at `t' = 1032900`: the
6-digit codes of counters 34427 and 34430 collide, so the claim's
"returns false whenever `|t' - t| ≥ 61`" is false. -/
theorem verify_totp_accepts_61s_later :
    generate_totp seedB (some 1032839) 1032839 = some ("157894", 1) ∧
    verify_totp seedB "157894" 1 1032900 = some true ∧
    1032839 + 61 = 1032900 := by
  refine ⟨by decide, by decide, by decide⟩


/-! ### C3: the Base64 stage of `rsa_oaep_decrypt` -/

/-- An alphabet character is not `=` and decodes. -/
theorem b64_alpha_step {c : Char} (h : isB64Alpha c = true) :
    c ≠ '=' ∧ ∃ v, b64DecVal c = some v := by
  constructor
  · rintro rfl
    revert h
    decide
  · exact Option.isSome_iff_exists.mp h

/-- Alphabet characters are ASCII. -/
theorem b64alpha_ascii {c : Char} (h : isB64Alpha c = true) : c.toNat < 128 := by
  unfold isB64Alpha b64DecVal at h
  split at h
  · omega
  · split at h
    · omega
    · split at h
      · omega
      · split at h
        · subst c
          decide
        · split at h
          · subst c
            decide
          · cases h

/-- Every character of a well-formed Base64 string is in the alphabet or
is padding. -/
theorem wf_chars :
    ∀ l, isWellFormedBase64Chars l = true →
      ∀ c ∈ l, isB64Alpha c = true ∨ c = '=' := by
  intro l
  induction l using isWellFormedBase64Chars.induct with
  | case1 =>
    intro _ c hc
    cases hc
  | case2 c1 c2 =>
    intro h c hc
    rw [isWellFormedBase64Chars] at h
    simp only [Bool.and_eq_true] at h
    simp only [List.mem_cons, List.not_mem_nil, or_false] at hc
    rcases hc with rfl | rfl | rfl | rfl
    · exact Or.inl h.1
    · exact Or.inl h.2
    · exact Or.inr rfl
    · exact Or.inr rfl
  | case3 c1 c2 c3 hne =>
    intro h c hc
    rw [isWellFormedBase64Chars] at h
    · simp only [Bool.and_eq_true] at h
      simp only [List.mem_cons, List.not_mem_nil, or_false] at hc
      rcases hc with rfl | rfl | rfl | rfl
      · exact Or.inl h.1.1
      · exact Or.inl h.1.2
      · exact Or.inl h.2
      · exact Or.inr rfl
    · exact hne
  | case4 c1 c2 c3 c4 rest h5 h6 ih =>
    intro h c hc
    rw [isWellFormedBase64Chars] at h
    · simp only [Bool.and_eq_true] at h
      obtain ⟨⟨⟨⟨h1, h2⟩, h3⟩, h4⟩, hrest⟩ := h
      simp only [List.mem_cons] at hc
      rcases hc with rfl | rfl | rfl | rfl | hc
      · exact Or.inl h1
      · exact Or.inl h2
      · exact Or.inl h3
      · exact Or.inl h4
      · exact ih hrest c hc
    · exact h5
    · exact h6
  | case5 l h1 h2 h3 h4 =>
    intro h c hc
    rw [isWellFormedBase64Chars] at h
    · cases h
    · exact h1
    · exact h2
    · exact h3
    · exact h4

/-- The lenient decoder succeeds on every well-formed Base64 string. -/
theorem b64decodeLoop_wf :
    ∀ l, isWellFormedBase64Chars l = true →
      ∀ out, ∃ bs, b64decodeLoop l 0 0 0 out = some bs := by
  intro l
  induction l using isWellFormedBase64Chars.induct with
  | case1 =>
    intro _ out
    exact ⟨out, rfl⟩
  | case2 c1 c2 =>
    intro h out
    rw [isWellFormedBase64Chars] at h
    simp only [Bool.and_eq_true] at h
    obtain ⟨hne1, v1, hv1⟩ := b64_alpha_step h.1
    obtain ⟨hne2, v2, hv2⟩ := b64_alpha_step h.2
    refine ⟨out ++ [v1 * 4 + v2 / 16], ?_⟩
    simp [b64decodeLoop, hv1, hv2, if_neg hne1, if_neg hne2]
  | case3 c1 c2 c3 hne =>
    intro h out
    rw [isWellFormedBase64Chars] at h
    · simp only [Bool.and_eq_true] at h
      obtain ⟨hne1, v1, hv1⟩ := b64_alpha_step h.1.1
      obtain ⟨hne2, v2, hv2⟩ := b64_alpha_step h.1.2
      obtain ⟨hne3, v3, hv3⟩ := b64_alpha_step h.2
      refine ⟨out ++ [v1 * 4 + v2 / 16] ++ [v2 % 16 * 16 + v3 / 4], ?_⟩
      simp [b64decodeLoop, hv1, hv2, hv3, if_neg hne1, if_neg hne2, if_neg hne3]
    · exact hne
  | case4 c1 c2 c3 c4 rest h5 h6 ih =>
    intro h out
    rw [isWellFormedBase64Chars] at h
    · simp only [Bool.and_eq_true] at h
      obtain ⟨⟨⟨⟨h1, h2⟩, h3⟩, h4⟩, hrest⟩ := h
      obtain ⟨hne1, v1, hv1⟩ := b64_alpha_step h1
      obtain ⟨hne2, v2, hv2⟩ := b64_alpha_step h2
      obtain ⟨hne3, v3, hv3⟩ := b64_alpha_step h3
      obtain ⟨hne4, v4, hv4⟩ := b64_alpha_step h4
      obtain ⟨bs, hbs⟩ := ih hrest
        (out ++ [v1 * 4 + v2 / 16] ++ [v2 % 16 * 16 + v3 / 4] ++ [v3 % 4 * 64 + v4])
      refine ⟨bs, ?_⟩
      have hstep : b64decodeLoop (c1 :: c2 :: c3 :: c4 :: rest) 0 0 0 out =
          b64decodeLoop rest 0 0 0
            (out ++ [v1 * 4 + v2 / 16] ++ [v2 % 16 * 16 + v3 / 4] ++ [v3 % 4 * 64 + v4]) := by
        simp [b64decodeLoop, hv1, hv2, hv3, hv4, if_neg hne1, if_neg hne2,
          if_neg hne3, if_neg hne4]
      rw [hstep]
      exact hbs
    · exact h5
    · exact h6
  | case5 l h1 h2 h3 h4 =>
    intro h out
    rw [isWellFormedBase64Chars] at h
    · cases h
    · exact h1
    · exact h2
    · exact h3
    · exact h4

/-- C3 amended theorem: the Base64 stage raises `EncodingInvalid` exactly
when Python's lenient decoder fails; every well-formed Base64 string
passes it and proceeds to OAEP decryption — but so do some malformed
strings, since off-alphabet characters are silently discarded (see the
counterexample). -/
theorem rsa_oaep_decrypt_base64_stage (key : RSAPriv) (s : String) :
    (b64decodePy s = none →
      rsa_oaep_decrypt key s = Except.error CryptoErr.encodingInvalid) ∧
    (isWellFormedBase64 s = true → ∃ bs, b64decodePy s = some bs ∧
      rsa_oaep_decrypt key s ≠ Except.error CryptoErr.encodingInvalid) := by
  constructor
  · intro h
    unfold rsa_oaep_decrypt
    rw [h]
  · intro h
    have hascii : s.data.all (fun c => c.toNat < 128) = true := by
      rw [List.all_eq_true]
      intro c hc
      rcases wf_chars s.data h c hc with ha | rfl
      · exact decide_eq_true (b64alpha_ascii ha)
      · decide
    obtain ⟨bs, hbs⟩ := b64decodeLoop_wf s.data h []
    have hdec : b64decodePy s = some bs := by
      unfold b64decodePy
      rw [if_pos hascii]
      exact hbs
    refine ⟨bs, hdec, ?_⟩
    unfold rsa_oaep_decrypt
    rw [hdec]
    cases hopt : oaepDecrypt key bs <;> simp [hopt]

/-- C3 witness: the well-formed input `"TQ=="` decodes (to the byte `M`)
and reaches the OAEP stage rather than failing with `EncodingInvalid`. -/
theorem rsa_oaep_decrypt_base64_stage_witness :
    rsa_oaep_decrypt keyToy "TQ==" ≠ Except.error CryptoErr.encodingInvalid := by
  obtain ⟨bs, h1, h2⟩ :=
    (rsa_oaep_decrypt_base64_stage keyToy "TQ==").2 (by decide)
  exact h2

/-- C3 counterexample: `"####"` is malformed Base64 yet raises no encoding
error — the lenient decoder discards every `#` and returns the empty byte
string, and `rsa_oaep_decrypt` proceeds to (and fails inside) the OAEP
stage, contradicting "raises an encoding error ... whenever the argument
is malformed Base64". -/
theorem rsa_oaep_decrypt_accepts_malformed :
    isWellFormedBase64 "####" = false ∧
    b64decodePy "####" = some [] ∧
    rsa_oaep_decrypt keyToy "####" = Except.error CryptoErr.decryptionFailed ∧
    rsa_oaep_decrypt keyToy "####" ≠ Except.error CryptoErr.encodingInvalid := by
  have h3 : rsa_oaep_decrypt keyToy "####" =
      Except.error CryptoErr.decryptionFailed := by rfl
  refine ⟨by decide, by decide, h3, ?_⟩
  intro hcontra
  rw [h3] at hcontra
  simp at hcontra

/-! ### C5: HTTP status mapping -/

/-- C5 amended theorem: missing input (no encrypted seed anywhere; no
code/totp field) yields 400; a missing seed file yields 500; but a
malformed encrypted seed supplied in the body also yields 500, because
the handler's blanket `except` maps every decryption-pipeline failure to
500 — not 400 as the claim says. -/
theorem http_error_mapping :
    (∀ (key : RSAPriv) (fs : SrvFS), fs.encSeedFile = none →
      (decrypt_seed none key fs).resp = Except.error 400) ∧
    (∀ (fs : SrvFS) (clock : Nat),
      (verify_2fa (none, none) fs clock).resp = Except.error 400) ∧
    (∀ (fs : SrvFS) (clock : Nat), fs.seedFile = none →
      (generate_2fa fs clock).resp = Except.error 500) ∧
    (∀ (key : RSAPriv) (fs : SrvFS) (s : String) (e : CryptoErr), s ≠ "" →
      rsa_oaep_decrypt key s = Except.error e →
      (decrypt_seed (some (some s)) key fs).resp = Except.error 500) := by
  refine ⟨?_, ?_, ?_, ?_⟩
  · intro key fs h
    simp [decrypt_seed, h]
  · intro fs clock
    rfl
  · intro fs clock h
    simp [generate_2fa, _build_totp_payload, _read_seed, h]
  · intro key fs s e hs hdec
    simp [decrypt_seed, orElseStr, if_neg hs, decryptPipeline, hdec]

/-- C5 witness: the four status facts at concrete states. -/
theorem http_error_mapping_witness :
    (decrypt_seed none keyToy fsEmpty).resp = Except.error 400 ∧
    (verify_2fa (none, none) fsEmpty 0).resp = Except.error 400 ∧
    (generate_2fa fsEmpty 0).resp = Except.error 500 ∧
    (decrypt_seed (some (some "####")) keyToy fsEmpty).resp = Except.error 500 := by
  refine ⟨http_error_mapping.1 keyToy fsEmpty rfl,
    http_error_mapping.2.1 fsEmpty 0,
    http_error_mapping.2.2.1 fsEmpty 0 rfl,
    http_error_mapping.2.2.2 keyToy fsEmpty "####" CryptoErr.decryptionFailed
      (by decide) (by rfl)⟩

/-- C5 counterexample: an unparsable encrypted seed supplied in the body
is malformed input, yet the handler answers 500, not the 400 the claim
assigns to malformed input. -/
theorem decrypt_seed_malformed_body_500 :
    isWellFormedBase64 "####" = false ∧
    (decrypt_seed (some (some "####")) keyToy fsEmpty).resp = Except.error 500 ∧
    (decrypt_seed (some (some "####")) keyToy fsEmpty).resp ≠ Except.error 400 := by
  have h2 : (decrypt_seed (some (some "####")) keyToy fsEmpty).resp =
      Except.error 500 := by rfl
  refine ⟨by decide, h2, ?_⟩
  intro h
  rw [h2] at h
  simp only [Except.error.injEq] at h
  omega

/-! ### C6: `POST /run-totp` -/

/-- C6 amended theorem: `/run-totp` returns exactly what the generate
endpoints return (same function, same shape, `totp = code` and
`expires_in = valid_for`), mutates nothing, and appends no audit log
line — the log line promised by the spec is never written here. -/
theorem run_totp_same_as_generate :
    (∀ (fs : SrvFS) (clock : Nat), run_totp fs clock = generate_2fa fs clock) ∧
    (∀ (fs : SrvFS) (clock : Nat),
      (run_totp fs clock).logs = [] ∧ (run_totp fs clock).fs = fs) ∧
    (∀ (fs : SrvFS) (clock : Nat) (c t : String) (vf ei : Int),
      (run_totp fs clock).resp = Except.ok (c, t, vf, ei) → t = c ∧ ei = vf) := by
  refine ⟨fun fs clock => rfl, fun fs clock => ⟨rfl, rfl⟩, ?_⟩
  intro fs clock c t vf ei h
  simp only [run_totp, _build_totp_payload] at h
  rcases h1 : _read_seed fs with e | seed <;> simp only [h1] at h
  · simp at h
  · rcases h2 : generate_totp seed none clock with _ | ⟨code, rem⟩ <;>
      simp only [h2] at h
    · simp at h
    · simp only [Except.ok.injEq, Prod.mk.injEq] at h
      obtain ⟨hc, ht, hvf, hei⟩ := h
      exact ⟨ht.symm.trans hc, hei.symm.trans hvf⟩

set_option maxRecDepth 4000000 in
set_option maxHeartbeats 8000000 in
/-- C6 witness: at a state holding the all-`a` seed and wall clock 100,
`/run-totp` answers the same as the generate endpoints with payload
`("739204", "739204", 20, 20)` and appends nothing. -/
theorem run_totp_same_as_generate_witness :
    run_totp fsSeedOnly 100 = generate_2fa fsSeedOnly 100 ∧
    (run_totp fsSeedOnly 100).logs = [] ∧
    ("739204" : String) = "739204" ∧ (20 : Int) = 20 := by
  refine ⟨run_totp_same_as_generate.1 fsSeedOnly 100,
    (run_totp_same_as_generate.2.1 fsSeedOnly 100).1, ?_⟩
  exact run_totp_same_as_generate.2.2 fsSeedOnly 100 "739204" "739204" 20 20
    (by rfl)

/-- C6 counterexample: a successful `/run-totp` call appends no audit log
line (its log-append effect is empty and the cron log is untouched),
contradicting "appends one audit log line to the log file". -/
theorem run_totp_appends_no_log :
    (run_totp fsSeedOnly 100).resp.isOk = true ∧
    (run_totp fsSeedOnly 100).logs = [] ∧
    (run_totp fsSeedOnly 100).fs.cronLog = [] := by
  exact ⟨by rfl, rfl, rfl⟩

/-! ### C7: key-pair generation refuses to overwrite -/

/-- C7 amended theorem: when either key file exists the run stops before
generating or writing anything — the state (key files byte-for-byte,
permissions) is unchanged — but it exits with status 0 (a plain `return`
after an INFO log), not the non-zero failure exit the spec's fail-fast
language prescribes for CLI entry points. -/
theorem generate_keys_no_overwrite (fs : KeyFS) (priv pub : List Nat)
    (h : fs.privFile.isSome ∨ fs.pubFile.isSome) :
    generate_keys_main fs priv pub = (0, fs) := by
  unfold generate_keys_main
  rw [if_pos h]

/-- C7 witness. -/
theorem generate_keys_no_overwrite_witness :
    generate_keys_main fsWithKey [2] [3] = (0, fsWithKey) :=
  generate_keys_no_overwrite fsWithKey [2] [3] (Or.inl (by decide))

/-- C7 counterexample: with the private-key file present, the run writes
nothing and leaves the file unchanged — but its exit status is 0, i.e. it
terminates successfully rather than failing fast. -/
theorem generate_keys_existing_exits_zero :
    (generate_keys_main fsWithKey [2] [3]).1 = 0 ∧
    (generate_keys_main fsWithKey [2] [3]).2 = fsWithKey ∧
    (generate_keys_main fsWithKey [2] [3]).2.privFile = some [1] := by
  decide

/-! ### C4: proof-generation failure behavior -/

/-- C4 amended theorem: missing key material aborts with nothing written;
a completed run (exit 0) archives exactly the four bundle components; but
an I/O failure mid-run (here: at the signing step) aborts *after* the
commit-hash file has been written — a partial artifact does remain on
disk, only the later artifacts are never written. -/
theorem generate_proof_abort (fs : ProofFS) (o : IOOracle) (ch : String) :
    ((¬fs.instructorPub ∨ ¬fs.privateKey) →
      generate_proof_main fs o ch = (1, fs)) ∧
    ((generate_proof_main fs o ch).1 = 0 →
      (generate_proof_main fs o ch).2.proofTar =
        some ["commit_hash.txt", "proof.sig", "proof.sig.enc", "README_proof.txt"]) ∧
    (fs.instructorPub → fs.privateKey → ¬o.gitFails → o.signFails →
      (generate_proof_main fs o ch).1 = 1 ∧
      (generate_proof_main fs o ch).2.commitHashFile = some ch ∧
      (generate_proof_main fs o ch).2.proofSig = fs.proofSig ∧
      (generate_proof_main fs o ch).2.proofSigEnc = fs.proofSigEnc ∧
      (generate_proof_main fs o ch).2.readme = fs.readme ∧
      (generate_proof_main fs o ch).2.proofTar = fs.proofTar) := by
  refine ⟨?_, ?_, ?_⟩
  · intro h
    unfold generate_proof_main
    rcases h with h | h
    · rw [if_pos h]
    · by_cases hi : fs.instructorPub
      · rw [if_neg (not_not_intro hi), if_pos h]
      · rw [if_pos hi]
  · unfold generate_proof_main
    split_ifs <;> simp
  · intro hi hk hg hs
    unfold generate_proof_main
    rw [if_neg (not_not_intro hi), if_neg (not_not_intro hk), if_neg hg,
      if_pos hs]
    simp

/-- C4 witness. -/
theorem generate_proof_abort_witness :
    generate_proof_main ⟨false, true, none, none, none, none, none⟩ oSignFails "x" =
      (1, ⟨false, true, none, none, none, none, none⟩) ∧
    (generate_proof_main pfs0 ⟨false, false, false, false, false⟩ "x").2.proofTar =
      some ["commit_hash.txt", "proof.sig", "proof.sig.enc", "README_proof.txt"] ∧
    (generate_proof_main pfs0 oSignFails "x").2.commitHashFile = some "x" := by
  refine ⟨(generate_proof_abort _ oSignFails "x").1 (Or.inl (by decide)),
    (generate_proof_abort pfs0 _ "x").2.1 (by decide), ?_⟩
  exact ((generate_proof_abort pfs0 oSignFails "x").2.2 (by decide) (by decide)
    (by decide) (by decide)).2.1

/-- C4 counterexample: with both keys present and the signing step
failing, the run aborts (exit 1) *after* writing the commit-hash file: a
partial artifact is written, contradicting "aborts before any partial
artifact is written". -/
theorem generate_proof_partial_artifact :
    pfs0.commitHashFile = none ∧
    (generate_proof_main pfs0 oSignFails "deadbeef").1 = 1 ∧
    (generate_proof_main pfs0 oSignFails "deadbeef").2.commitHashFile =
      some "deadbeef" ∧
    (generate_proof_main pfs0 oSignFails "deadbeef").2.proofTar = none := by
  decide

/-! ### C8, part 1: modular exponentiation and primality certificates -/

/-- Correctness of the fuel-based modular exponentiation. -/
theorem powModAux_correct :
    ∀ (fuel n a b : Nat), 0 < n → b < 2 ^ fuel →
      powModAux n fuel a b = a ^ b % n := by
  intro fuel
  induction fuel with
  | zero =>
    intro n a b hn hb
    have : b = 0 := by simpa using hb
    subst this
    rfl
  | succ f ih =>
    intro n a b hn hb
    unfold powModAux
    rcases eq_or_ne b 0 with rfl | hb0
    · rw [if_pos rfl]
      simp
    · rw [if_neg hb0]
      have hb2 : b / 2 < 2 ^ f := by
        rw [pow_succ] at hb
        omega
      have hr : powModAux n f (a * a % n) (b / 2) = (a * a % n) ^ (b / 2) % n :=
        ih n (a * a % n) (b / 2) hn hb2
      have hsq : (a * a % n) ^ (b / 2) % n = (a * a) ^ (b / 2) % n :=
        (Nat.pow_mod (a * a) (b / 2) n).symm
      have haa : a * a = a ^ 2 := (pow_two a).symm
      rcases Nat.even_or_odd b with he | ho
      · have hmod : ¬(b % 2 = 1) := by
          rcases he with ⟨c, hc⟩
          omega
        have hb' : 2 * (b / 2) = b := by
          rcases he with ⟨c, hc⟩
          omega
        rw [if_neg hmod, hr, hsq, haa, ← pow_mul, hb']
      · have hmod : b % 2 = 1 := by
          rcases ho with ⟨c, hc⟩
          omega
        have hb' : b = 2 * (b / 2) + 1 := by omega
        rw [if_pos hmod, hr, hsq]
        conv_rhs => rw [hb', pow_add, pow_mul, pow_one, ← haa]
        rw [Nat.mul_mod ((a * a) ^ (b / 2)) a n]

/-- `powMod` computes `a ^ b % n` for every exponent below `2^600`. -/
theorem powMod_correct (a b n : Nat) (hn : 0 < n) (hb : b < 2 ^ 600) :
    powMod a b n = a ^ b % n :=
  powModAux_correct 600 n a b hn hb

/-- Transfer a `powMod` computation into `ZMod`. -/
theorem zmod_pow_eq_one (p a b : Nat) (h : a ^ b % p = 1 % p) :
    ((a : ZMod p)) ^ b = 1 := by
  have h1 : ((a : ZMod p)) ^ b = ((a ^ b : ℕ) : ZMod p) := by
    push_cast
    rfl
  have h2 : ((a ^ b : ℕ) : ZMod p) = (((a ^ b) % p : ℕ) : ZMod p) :=
    (ZMod.natCast_mod _ _).symm
  rw [h1, h2, h]
  rw [ZMod.natCast_mod 1 p]
  exact Nat.cast_one

/-- Transfer a `powMod` disequality into `ZMod`. -/
theorem zmod_pow_ne_one (p a b v : Nat) (h : a ^ b % p = v) (hv : v ≠ 1 % p) :
    ((a : ZMod p)) ^ b ≠ 1 := by
  intro hcontra
  apply hv
  have h1 : ((a ^ b : ℕ) : ZMod p) = ((1 : ℕ) : ZMod p) := by
    push_cast
    rw [hcontra]
  have h2 := (ZMod.natCast_eq_natCast_iff _ _ _).mp h1
  unfold Nat.ModEq at h2
  rw [h] at h2
  exact h2

/-- Lucas primality for numbers of the form `c * 2^t + 1` with `c` prime:
it suffices to exhibit one witness element. -/
theorem proth_prime (p c t a : Nat) (hc : c.Prime) (hp1 : p - 1 = c * 2 ^ t)
    (ha1 : ((a : ZMod p)) ^ (p - 1) = 1)
    (ha2 : ((a : ZMod p)) ^ ((p - 1) / 2) ≠ 1)
    (hac : ((a : ZMod p)) ^ ((p - 1) / c) ≠ 1) : p.Prime := by
  apply lucas_primality p (a : ZMod p) ha1
  intro r hr hdvd
  have hcases : r = 2 ∨ r = c := by
    rw [hp1] at hdvd
    rcases hr.dvd_mul.mp hdvd with h | h
    · exact Or.inr ((Nat.prime_dvd_prime_iff_eq hr hc).mp h)
    · exact Or.inl ((Nat.prime_dvd_prime_iff_eq hr Nat.prime_two).mp
        (hr.dvd_of_dvd_pow h))
  rcases hcases with rfl | rfl
  · exact ha2
  · exact hac

/-- Fermat fixed-point: with `e*d ≡ 1` modulo `p - 1`, the map
`m ↦ m^(e*d)` is the identity modulo the prime `p`. -/
theorem modpow_prime_fix (p : Nat) (hp : p.Prime) (e d : Nat)
    (hed : e * d ≡ 1 [MOD p - 1]) (hed0 : 0 < e * d) (m : Nat) :
    m ^ (e * d) ≡ m [MOD p] := by
  haveI := Fact.mk hp
  obtain ⟨c, hc⟩ : ∃ c, e * d = (p - 1) * c + 1 := by
    obtain ⟨c, hcc⟩ := (Nat.modEq_iff_dvd' (by omega)).mp hed.symm
    exact ⟨c, by omega⟩
  have hz : ∀ x : ZMod p, x ^ (e * d) = x := by
    intro x
    rcases eq_or_ne x 0 with rfl | hx
    · rw [zero_pow (by omega : e * d ≠ 0)]
    · rw [hc, pow_add, pow_mul, pow_one,
        ZMod.pow_card_sub_one_eq_one hx, one_pow, one_mul]
  have h1 : ((m ^ (e * d) : ℕ) : ZMod p) = ((m : ℕ) : ZMod p) := by
    push_cast
    exact hz (m : ZMod p)
  exact (ZMod.natCast_eq_natCast_iff _ _ _).mp h1

/-- Textbook RSA inversion for a valid key pair. -/
theorem rsa_inverts (p q e d : Nat) (hp : p.Prime) (hq : q.Prime) (hpq : p ≠ q)
    (hed1 : e * d ≡ 1 [MOD p - 1]) (hed2 : e * d ≡ 1 [MOD q - 1])
    (hed0 : 0 < e * d) (m : Nat) (hm : m < p * q) :
    (m ^ e % (p * q)) ^ d % (p * q) = m := by
  have h1 : (m ^ e % (p * q)) ^ d % (p * q) = m ^ (e * d) % (p * q) := by
    rw [← Nat.pow_mod, ← pow_mul]
  rw [h1]
  have hmodp := modpow_prime_fix p hp e d hed1 hed0 m
  have hmodq := modpow_prime_fix q hq e d hed2 hed0 m
  have hcop : Nat.Coprime p q := (Nat.coprime_primes hp hq).mpr hpq
  have hmod := (Nat.modEq_and_modEq_iff_modEq_mul hcop).mp ⟨hmodp, hmodq⟩
  calc m ^ (e * d) % (p * q) = m % (p * q) := hmod
  _ = m := Nat.mod_eq_of_lt hm

set_option maxRecDepth 1000000 in
/-- `pWit = 3793 * 2^506 + 1` is prime (Lucas certificate, witness 3). -/
theorem pWit_prime : Nat.Prime pWit := by
  have hn : 0 < pWit := by decide
  apply proth_prime pWit 3793 506 3 (by norm_num) (by decide)
  · apply zmod_pow_eq_one
    rw [← powMod_correct 3 (pWit - 1) pWit hn (by decide)]
    decide
  · apply zmod_pow_ne_one pWit 3 ((pWit - 1) / 2) (powMod 3 ((pWit - 1) / 2) pWit)
    · exact (powMod_correct 3 _ pWit hn (by decide)).symm
    · decide
  · apply zmod_pow_ne_one pWit 3 ((pWit - 1) / 3793)
      (powMod 3 ((pWit - 1) / 3793) pWit)
    · exact (powMod_correct 3 _ pWit hn (by decide)).symm
    · decide

set_option maxRecDepth 1000000 in
/-- `qWit = 3187 * 2^510 + 1` is prime (Lucas certificate, witness 3). -/
theorem qWit_prime : Nat.Prime qWit := by
  have hn : 0 < qWit := by decide
  apply proth_prime qWit 3187 510 3 (by norm_num) (by decide)
  · apply zmod_pow_eq_one
    rw [← powMod_correct 3 (qWit - 1) qWit hn (by decide)]
    decide
  · apply zmod_pow_ne_one qWit 3 ((qWit - 1) / 2) (powMod 3 ((qWit - 1) / 2) qWit)
    · exact (powMod_correct 3 _ qWit hn (by decide)).symm
    · decide
  · apply zmod_pow_ne_one qWit 3 ((qWit - 1) / 3187)
      (powMod 3 ((qWit - 1) / 3187) qWit)
    · exact (powMod_correct 3 _ qWit hn (by decide)).symm
    · decide

/-! ### C8, part 2: byte-string and mask plumbing -/

/-- `toBytesBE` produces exactly `k` bytes. -/
theorem toBytesBE_length : ∀ (k n : Nat), (toBytesBE k n).length = k := by
  intro k
  induction k with
  | zero => intro n; rfl
  | succ m ih =>
    intro n
    rw [toBytesBE, List.length_append, ih]
    rfl

/-- `toBytesBE` bytes are below 256. -/
theorem toBytesBE_lt : ∀ (k n : Nat), ∀ b ∈ toBytesBE k n, b < 256 := by
  intro k
  induction k with
  | zero =>
    intro n b hb
    cases hb
  | succ m ih =>
    intro n b hb
    rw [toBytesBE] at hb
    rcases List.mem_append.mp hb with h | h
    · exact ih (n / 256) b h
    · rcases List.mem_singleton.mp h with rfl
      exact Nat.mod_lt _ (by norm_num)

/-- Folding one more byte. -/
theorem osToInt_append_singleton (xs : List Nat) (b : Nat) :
    osToInt (xs ++ [b]) = osToInt xs * 256 + b := by
  unfold osToInt
  rw [List.foldl_append]
  rfl

/-- `OS2IP ∘ I2OSP` is the identity below `256^k`. -/
theorem osToInt_toBytesBE : ∀ (k n : Nat), n < 256 ^ k →
    osToInt (toBytesBE k n) = n := by
  intro k
  induction k with
  | zero =>
    intro n hn
    interval_cases n
    rfl
  | succ m ih =>
    intro n hn
    rw [toBytesBE, osToInt_append_singleton, ih (n / 256) (by
      rw [pow_succ] at hn
      omega)]
    omega

/-- `I2OSP ∘ OS2IP` is the identity on `k` bytes. -/
theorem toBytesBE_osToInt :
    ∀ (bs : List Nat), (∀ b ∈ bs, b < 256) →
      toBytesBE bs.length (osToInt bs) = bs := by
  intro bs
  induction bs using List.reverseRecOn with
  | nil => intro _; rfl
  | append_singleton xs b ih =>
    intro h
    rw [osToInt_append_singleton, List.length_append]
    have hb : b < 256 := h b (by simp)
    have h1 : (osToInt xs * 256 + b) / 256 = osToInt xs := by omega
    have h2 : (osToInt xs * 256 + b) % 256 = b := by omega
    rw [List.length_singleton, toBytesBE, h1, h2,
      ih (fun x hx => h x (List.mem_append_left _ hx))]

/-- `OS2IP` is bounded by `256^length`. -/
theorem osToInt_lt :
    ∀ (bs : List Nat), (∀ b ∈ bs, b < 256) → osToInt bs < 256 ^ bs.length := by
  intro bs
  induction bs using List.reverseRecOn with
  | nil => intro _; decide
  | append_singleton xs b ih =>
    intro h
    rw [osToInt_append_singleton, List.length_append, List.length_singleton,
      pow_succ]
    have hb : b < 256 := h b (by simp)
    have := ih (fun x hx => h x (List.mem_append_left _ hx))
    omega

/-- A leading zero byte does not change the value. -/
theorem osToInt_cons_zero (bs : List Nat) : osToInt (0 :: bs) = osToInt bs := by
  rfl

/-- Masking twice with the same mask is the identity. -/
theorem xorBytes_cancel :
    ∀ (a b : List Nat), a.length ≤ b.length → xorBytes (xorBytes a b) b = a := by
  intro a
  induction a with
  | nil => intro b _; cases b <;> rfl
  | cons x xs ih =>
    intro b hb
    cases b with
    | nil => cases hb
    | cons y ys =>
      show ((x ^^^ y) ^^^ y) :: xorBytes (xorBytes xs ys) ys = x :: xs
      rw [Nat.xor_cancel_right y x, ih ys (by simpa using hb)]

/-- The length of a pointwise xor. -/
theorem xorBytes_length (a b : List Nat) :
    (xorBytes a b).length = min a.length b.length := by
  unfold xorBytes
  exact List.length_zipWith _ _ _

/-- Xor of bytes is a byte. -/
theorem xorBytes_lt :
    ∀ (a b : List Nat), (∀ x ∈ a, x < 256) → (∀ x ∈ b, x < 256) →
      ∀ y ∈ xorBytes a b, y < 256 := by
  intro a
  induction a with
  | nil =>
    intro b _ _ y hy
    cases hy
  | cons x xs ih =>
    intro b ha hb y hy
    cases b with
    | nil => cases hy
    | cons z zs =>
      rcases List.mem_cons.mp hy with rfl | hy2
      · have hx : x < 256 := ha x (List.mem_cons_self _ _)
        have hz : z < 256 := hb z (List.mem_cons_self _ _)
        have h8 : (256 : Nat) = 2 ^ 8 := by norm_num
        rw [h8] at hx hz ⊢
        exact Nat.xor_lt_two_pow hx hz
      · exact ih zs (fun u hu => ha u (List.mem_cons_of_mem _ hu))
          (fun u hu => hb u (List.mem_cons_of_mem _ hu)) y hy2

/-- SHA-256 digests are 32 bytes. -/
theorem sha256_length (msg : List Nat) : (sha256 msg).length = 32 := by
  unfold sha256
  rcases (chunks64 (sha1Pad msg)).foldl sha256Compress
    (0x6a09e667, 0xbb67ae85, 0x3c6ef372, 0xa54ff53a,
      0x510e527f, 0x9b05688c, 0x1f83d9ab, 0x5be0cd19) with
    ⟨h0, h1, h2, h3, h4, h5, h6, h7⟩
  simp [toBytesBE_length]

/-- SHA-256 digest bytes are bytes. -/
theorem sha256_lt (msg : List Nat) : ∀ b ∈ sha256 msg, b < 256 := by
  unfold sha256
  rcases (chunks64 (sha1Pad msg)).foldl sha256Compress
    (0x6a09e667, 0xbb67ae85, 0x3c6ef372, 0xa54ff53a,
      0x510e527f, 0x9b05688c, 0x1f83d9ab, 0x5be0cd19) with
    ⟨h0, h1, h2, h3, h4, h5, h6, h7⟩
  intro b hb
  simp only [List.mem_append] at hb
  rcases hb with ((((((h | h) | h) | h) | h) | h) | h) | h <;>
    exact toBytesBE_lt 4 _ b h

/-- MGF1 produces exactly the requested number of bytes. -/
theorem mgf1_length (seed : List Nat) (len : Nat) :
    (mgf1sha256 seed len).length = len := by
  unfold mgf1sha256
  rw [List.length_take]
  have hlen : (((List.range ((len + 31) / 32)).map
      (fun i => sha256 (seed ++ toBytesBE 4 i))).flatten).length =
      32 * ((len + 31) / 32) := by
    rw [List.length_flatten]
    rw [List.map_map]
    have : ((List.range ((len + 31) / 32)).map
        (List.length ∘ fun i => sha256 (seed ++ toBytesBE 4 i))) =
        (List.range ((len + 31) / 32)).map (fun _ => 32) := by
      apply List.map_congr_left
      intro i _
      exact sha256_length _
    rw [this]
    have hsum : ∀ (l : List Nat), (l.map (fun _ => (32 : Nat))).sum = 32 * l.length := by
      intro l
      induction l with
      | nil => rfl
      | cons a t iht =>
        simp only [List.map_cons, List.sum_cons, List.length_cons, iht]
        ring
    rw [hsum, List.length_range]
  rw [hlen]
  omega

/-- MGF1 output bytes are bytes. -/
theorem mgf1_lt (seed : List Nat) (len : Nat) :
    ∀ b ∈ mgf1sha256 seed len, b < 256 := by
  intro b hb
  unfold mgf1sha256 at hb
  have hb2 := List.mem_of_mem_take hb
  obtain ⟨l, hl, hbl⟩ := List.mem_flatten.mp hb2
  obtain ⟨i, _, rfl⟩ := List.mem_map.mp hl
  exact sha256_lt _ b hbl

/-- Dropping the zero padding stops at the `0x01` separator. -/
theorem dropWhile_zeros (z : Nat) (msg : List Nat) :
    List.dropWhile (fun b => b = 0) (List.replicate z 0 ++ 1 :: msg) =
      1 :: msg := by
  induction z with
  | zero => rfl
  | succ m ih => simp [List.replicate_succ, List.dropWhile, ih]

/-- The hex encoding of `S` has two ASCII bytes per byte of `S`. -/
theorem hexMsg_length (S : List Nat) :
    (asciiBytes (hexOfBytes S)).length = 2 * S.length := by
  unfold asciiBytes hexOfBytes
  rw [List.length_map]
  induction S with
  | nil => rfl
  | cons b bs ih =>
    rw [List.flatMap_cons, List.length_append, ih]
    simp [List.length_cons]
    omega

/-- Hex-encoding bytes are ASCII codes (below 256). -/
theorem hexMsg_lt (S : List Nat) (hS : ∀ b ∈ S, b < 256) :
    ∀ b ∈ asciiBytes (hexOfBytes S), b < 256 := by
  intro b hb
  unfold asciiBytes at hb
  obtain ⟨c, hc, rfl⟩ := List.mem_map.mp hb
  unfold hexOfBytes at hc
  obtain ⟨x, hxS, hx⟩ := List.mem_flatMap.mp hc
  have hx256 : x < 256 := hS x hxS
  have hchar : ∀ v : Nat, v < 16 → (hexDigitChar v).toNat < 256 := by decide
  rcases List.mem_cons.mp hx with rfl | hx2
  · exact hchar _ (by omega)
  · rcases List.mem_cons.mp hx2 with rfl | hx3
    · exact hchar _ (Nat.mod_lt _ (by norm_num))
    · cases hx3

/-! ### C8, part 3: Base64 value round trip -/

/-- The decode table inverts the encode table on 6-bit values. -/
theorem b64tab : ∀ v : Nat, v < 64 → b64DecVal (b64EncChar v) = some v := by
  decide

/-- Encoded characters are never the padding character. -/
theorem b64ne_pad : ∀ v : Nat, v < 64 → b64EncChar v ≠ '=' := by
  decide

/-- Encoded characters are ASCII. -/
theorem b64enc_ascii : ∀ v : Nat, v < 64 → (b64EncChar v).toNat < 128 := by
  decide

/-- One decode-loop step on a data character at quantum position 0. -/
theorem b64step0 (c : Char) (v : Nat) (rest : List Char) (l p : Nat)
    (out : List Nat) (hv : b64DecVal c = some v) (hne : c ≠ '=') :
    b64decodeLoop (c :: rest) 0 l p out = b64decodeLoop rest 1 v 0 out := by
  rw [b64decodeLoop, if_neg hne, hv]

/-- One decode-loop step on a data character at quantum position 1. -/
theorem b64step1 (c : Char) (v : Nat) (rest : List Char) (l p : Nat)
    (out : List Nat) (hv : b64DecVal c = some v) (hne : c ≠ '=') :
    b64decodeLoop (c :: rest) 1 l p out =
      b64decodeLoop rest 2 (v % 16) 0 (out ++ [l * 4 + v / 16]) := by
  rw [b64decodeLoop, if_neg hne, hv]

/-- One decode-loop step on a data character at quantum position 2. -/
theorem b64step2 (c : Char) (v : Nat) (rest : List Char) (l p : Nat)
    (out : List Nat) (hv : b64DecVal c = some v) (hne : c ≠ '=') :
    b64decodeLoop (c :: rest) 2 l p out =
      b64decodeLoop rest 3 (v % 4) 0 (out ++ [l * 16 + v / 4]) := by
  rw [b64decodeLoop, if_neg hne, hv]

/-- One decode-loop step on a data character at quantum position 3. -/
theorem b64step3 (c : Char) (v : Nat) (rest : List Char) (l p : Nat)
    (out : List Nat) (hv : b64DecVal c = some v) (hne : c ≠ '=') :
    b64decodeLoop (c :: rest) 3 l p out =
      b64decodeLoop rest 0 0 0 (out ++ [l * 64 + v]) := by
  rw [b64decodeLoop, if_neg hne, hv]

/-- Padding at quantum position 3 completes the quantum. -/
theorem b64stepTerm3 (rest : List Char) (l : Nat) (out : List Nat) :
    b64decodeLoop ('=' :: rest) 3 l 0 out = some out := by
  rw [b64decodeLoop]
  norm_num

/-- First padding character at quantum position 2 is only counted. -/
theorem b64stepPad2a (rest : List Char) (l : Nat) (out : List Nat) :
    b64decodeLoop ('=' :: rest) 2 l 0 out = b64decodeLoop rest 2 l 1 out := by
  rw [b64decodeLoop]
  norm_num

/-- Second padding character at quantum position 2 completes the quantum. -/
theorem b64stepPad2b (rest : List Char) (l : Nat) (out : List Nat) :
    b64decodeLoop ('=' :: rest) 2 l 1 out = some out := by
  rw [b64decodeLoop]
  norm_num

/-- The non-strict decode loop inverts the encoder, byte for byte. -/
theorem b64decodeLoop_encode :
    ∀ (bs : List Nat), (∀ b ∈ bs, b < 256) → ∀ (out : List Nat),
      b64decodeLoop (b64encodeBody bs) 0 0 0 out = some (out ++ bs) := by
  intro bs
  induction bs using b64encodeBody.induct with
  | case1 b1 b2 b3 rest ih =>
    intro h out
    have h1 : b1 < 256 := h b1 (by simp)
    have h2 : b2 < 256 := h b2 (by simp)
    have h3 : b3 < 256 := h b3 (by simp)
    rw [b64encodeBody]
    rw [b64step0 _ _ _ _ _ _ (b64tab (b1 / 4) (by omega))
      (b64ne_pad (b1 / 4) (by omega))]
    rw [b64step1 _ _ _ _ _ _ (b64tab (b1 % 4 * 16 + b2 / 16) (by omega))
      (b64ne_pad (b1 % 4 * 16 + b2 / 16) (by omega))]
    rw [b64step2 _ _ _ _ _ _ (b64tab (b2 % 16 * 4 + b3 / 64) (by omega))
      (b64ne_pad (b2 % 16 * 4 + b3 / 64) (by omega))]
    rw [b64step3 _ _ _ _ _ _ (b64tab (b3 % 64) (by omega))
      (b64ne_pad (b3 % 64) (by omega))]
    rw [ih (fun b hb => h b (by simp [hb]))]
    have eA : b1 / 4 * 4 + (b1 % 4 * 16 + b2 / 16) / 16 = b1 := by omega
    have eB : (b1 % 4 * 16 + b2 / 16) % 16 * 16 + (b2 % 16 * 4 + b3 / 64) / 4 =
        b2 := by omega
    have eC : (b2 % 16 * 4 + b3 / 64) % 4 * 64 + b3 % 64 = b3 := by omega
    rw [eA, eB, eC]
    simp
  | case2 b1 b2 =>
    intro h out
    have h1 : b1 < 256 := h b1 (by simp)
    have h2 : b2 < 256 := h b2 (by simp)
    rw [b64encodeBody]
    rw [b64step0 _ _ _ _ _ _ (b64tab (b1 / 4) (by omega))
      (b64ne_pad (b1 / 4) (by omega))]
    rw [b64step1 _ _ _ _ _ _ (b64tab (b1 % 4 * 16 + b2 / 16) (by omega))
      (b64ne_pad (b1 % 4 * 16 + b2 / 16) (by omega))]
    rw [b64step2 _ _ _ _ _ _ (b64tab (b2 % 16 * 4) (by omega))
      (b64ne_pad (b2 % 16 * 4) (by omega))]
    rw [b64stepTerm3]
    have eA : b1 / 4 * 4 + (b1 % 4 * 16 + b2 / 16) / 16 = b1 := by omega
    have eB : (b1 % 4 * 16 + b2 / 16) % 16 * 16 + b2 % 16 * 4 / 4 = b2 := by
      omega
    rw [eA, eB]
    simp
  | case3 b1 =>
    intro h out
    have h1 : b1 < 256 := h b1 (by simp)
    rw [b64encodeBody]
    rw [b64step0 _ _ _ _ _ _ (b64tab (b1 / 4) (by omega))
      (b64ne_pad (b1 / 4) (by omega))]
    rw [b64step1 _ _ _ _ _ _ (b64tab (b1 % 4 * 16) (by omega))
      (b64ne_pad (b1 % 4 * 16) (by omega))]
    rw [b64stepPad2a, b64stepPad2b]
    have eA : b1 / 4 * 4 + b1 % 4 * 16 / 16 = b1 := by omega
    rw [eA]
  | case4 =>
    intro _ out
    simp [b64encodeBody, b64decodeLoop]

/-- Every character emitted by the encoder is ASCII. -/
theorem b64encodeBody_ascii :
    ∀ (bs : List Nat), (∀ b ∈ bs, b < 256) →
      ∀ c ∈ b64encodeBody bs, c.toNat < 128 := by
  intro bs
  induction bs using b64encodeBody.induct with
  | case1 b1 b2 b3 rest ih =>
    intro h c hc
    have h1 : b1 < 256 := h b1 (by simp)
    have h2 : b2 < 256 := h b2 (by simp)
    have h3 : b3 < 256 := h b3 (by simp)
    rw [b64encodeBody] at hc
    simp only [List.mem_cons] at hc
    rcases hc with rfl | rfl | rfl | rfl | hc
    · exact b64enc_ascii _ (by omega)
    · exact b64enc_ascii _ (by omega)
    · exact b64enc_ascii _ (by omega)
    · exact b64enc_ascii _ (by omega)
    · exact ih (fun b hb => h b (by simp [hb])) c hc
  | case2 b1 b2 =>
    intro h c hc
    have h1 : b1 < 256 := h b1 (by simp)
    have h2 : b2 < 256 := h b2 (by simp)
    rw [b64encodeBody] at hc
    simp only [List.mem_cons, List.not_mem_nil, or_false] at hc
    rcases hc with rfl | rfl | rfl | rfl
    · exact b64enc_ascii _ (by omega)
    · exact b64enc_ascii _ (by omega)
    · exact b64enc_ascii _ (by omega)
    · decide
  | case3 b1 =>
    intro h c hc
    have h1 : b1 < 256 := h b1 (by simp)
    rw [b64encodeBody] at hc
    simp only [List.mem_cons, List.not_mem_nil, or_false] at hc
    rcases hc with rfl | rfl | rfl | rfl
    · exact b64enc_ascii _ (by omega)
    · exact b64enc_ascii _ (by omega)
    · decide
    · decide
  | case4 =>
    intro _ c hc
    cases hc

/-- `base64.b64decode` inverts `base64.b64encode` on byte strings. -/
theorem b64decodePy_encodePy (bs : List Nat) (h : ∀ b ∈ bs, b < 256) :
    b64decodePy (b64encodePy bs) = some bs := by
  unfold b64decodePy b64encodePy
  rw [if_pos]
  · exact b64decodeLoop_encode bs h []
  · rw [List.all_eq_true]
    intro c hc
    simpa using b64encodeBody_ascii bs h c hc

/-! ### C8, part 4: the OAEP round trip -/

/-- `oaepDecrypt` when the integer checks pass and the encoded message
starts with byte `y`: the RFC 8017 unmasking pipeline on the tail. -/
theorem oaepDecrypt_cons (key : RSAPriv) (ct : List Nat) (y : Nat)
    (rest : List Nat)
    (hok : ¬ (ct.length ≠ key.k ∨ key.k < 2 * 32 + 2 ∨ key.n ≤ osToInt ct))
    (hem : toBytesBE key.k (osToInt ct ^ key.d % key.n) = y :: rest) :
    oaepDecrypt key ct =
      (let maskedSeed := rest.take 32
       let maskedDB := rest.drop 32
       let seedMask := mgf1sha256 maskedDB 32
       let seed := xorBytes maskedSeed seedMask
       let dbMask := mgf1sha256 seed (key.k - 32 - 1)
       let db := xorBytes maskedDB dbMask
       let lHash2 := db.take 32
       let afterPS := (db.drop 32).dropWhile (fun b => b = 0)
       match afterPS with
       | 1 :: m => if y = 0 ∧ lHash2 = sha256 [] then some m else none
       | _ => none) := by
  unfold oaepDecrypt
  rw [if_neg hok, hem]

set_option maxRecDepth 4000000 in
/-- OAEP decryption inverts OAEP encryption: for a 64-byte message, a
32-byte seed, a key of at least 130 octets and a modular inversion
property for the exponents, every ciphertext produced by `oaepEncrypt`
decrypts to the original message. -/
theorem oaep_roundtrip_core (n e d k : Nat) (msg seed : List Nat)
    (hmlen : msg.length = 64) (hmlt : ∀ b ∈ msg, b < 256)
    (hslen : seed.length = 32) (hslt : ∀ b ∈ seed, b < 256)
    (hk : 130 ≤ k) (hn1 : 256 ^ (k - 1) ≤ n) (hn2 : n < 256 ^ k)
    (hinv : ∀ m, m < n → (m ^ e % n) ^ d % n = m) :
    ∀ ct, oaepEncrypt ⟨n, e, k⟩ msg seed = some ct →
      oaepDecrypt ⟨n, d, k⟩ ct = some msg := by
  intro ct hct
  have hnpos : 0 < n := lt_of_lt_of_le (pow_pos (by norm_num) _) hn1
  have hguard : ¬ (k < msg.length + 2 * 32 + 2) := by omega
  set dbMask := mgf1sha256 seed (k - 32 - 1) with hdbM
  set db : List Nat :=
    sha256 [] ++ List.replicate (k - msg.length - 2 * 32 - 2) 0 ++ 1 :: msg
    with hdb
  set maskedDB := xorBytes db dbMask with hmDB
  set seedMask := mgf1sha256 maskedDB 32 with hsM
  set maskedSeed := xorBytes seed seedMask with hmS
  set em : List Nat := 0 :: maskedSeed ++ maskedDB with hem
  have hdblen : db.length = k - 32 - 1 := by
    rw [hdb]
    simp only [List.length_append, List.length_replicate, List.length_cons,
      sha256_length]
    omega
  have hdbMlen : dbMask.length = k - 32 - 1 := by
    rw [hdbM]; exact mgf1_length _ _
  have hmDBlen : maskedDB.length = k - 32 - 1 := by
    rw [hmDB, xorBytes_length, hdblen, hdbMlen, Nat.min_self]
  have hsMlen : seedMask.length = 32 := by
    rw [hsM]; exact mgf1_length _ _
  have hmSlen : maskedSeed.length = 32 := by
    rw [hmS, xorBytes_length, hslen, hsMlen, Nat.min_self]
  have hdb_lt : ∀ b ∈ db, b < 256 := by
    rw [hdb]
    intro b hb
    simp only [List.mem_append, List.mem_cons, List.mem_replicate] at hb
    rcases hb with (h | h) | h
    · exact sha256_lt _ b h
    · omega
    · rcases h with rfl | h
      · norm_num
      · exact hmlt b h
  have hdbM_lt : ∀ b ∈ dbMask, b < 256 := by rw [hdbM]; exact mgf1_lt _ _
  have hmDB_lt : ∀ b ∈ maskedDB, b < 256 := by
    rw [hmDB]; exact xorBytes_lt db dbMask hdb_lt hdbM_lt
  have hsM_lt : ∀ b ∈ seedMask, b < 256 := by rw [hsM]; exact mgf1_lt _ _
  have hmS_lt : ∀ b ∈ maskedSeed, b < 256 := by
    rw [hmS]; exact xorBytes_lt seed seedMask hslt hsM_lt
  have hem_lt : ∀ b ∈ em, b < 256 := by
    rw [hem, List.cons_append]
    intro b hb
    rcases List.mem_cons.mp hb with rfl | hb2
    · norm_num
    · rcases List.mem_append.mp hb2 with h | h
      · exact hmS_lt b h
      · exact hmDB_lt b h
  have hemlen : em.length = k := by
    rw [hem, List.cons_append, List.length_cons, List.length_append, hmSlen,
      hmDBlen]
    omega
  have hm0lt : osToInt em < 256 ^ (k - 1) := by
    rw [hem, List.cons_append, osToInt_cons_zero]
    have hlt := osToInt_lt (maskedSeed ++ maskedDB) (by
      intro b hb
      rcases List.mem_append.mp hb with h | h
      · exact hmS_lt b h
      · exact hmDB_lt b h)
    rw [List.length_append, hmSlen, hmDBlen] at hlt
    have hexp : 32 + (k - 32 - 1) = k - 1 := by omega
    rwa [hexp] at hlt
  have hm0n : osToInt em < n := lt_of_lt_of_le hm0lt hn1
  have henc : oaepEncrypt ⟨n, e, k⟩ msg seed =
      some (toBytesBE k (osToInt em ^ e % n)) := by
    rw [hem, hmS, hsM, hmDB, hdbM, hdb]
    unfold oaepEncrypt
    rw [if_neg hguard]
  rw [henc] at hct
  obtain rfl := Option.some.inj hct
  set c := osToInt em ^ e % n with hc
  have hclt : c < n := by rw [hc]; exact Nat.mod_lt _ hnpos
  have hosct : osToInt (toBytesBE k c) = c :=
    osToInt_toBytesBE k c (lt_trans hclt hn2)
  have hctlen : (toBytesBE k c).length = k := toBytesBE_length k c
  have hguard2 : ¬ ((toBytesBE k c).length ≠ k ∨ k < 2 * 32 + 2 ∨
      n ≤ osToInt (toBytesBE k c)) := by
    push_neg
    refine ⟨hctlen, by omega, ?_⟩
    rw [hosct]
    exact hclt
  have hinvc : c ^ d % n = osToInt em := by
    rw [hc]
    exact hinv (osToInt em) hm0n
  have hemround : toBytesBE k (osToInt em) = em := by
    rw [← hemlen]
    exact toBytesBE_osToInt em hem_lt
  have hshape : toBytesBE k (osToInt (toBytesBE k c) ^ d % n) =
      0 :: (maskedSeed ++ maskedDB) := by
    rw [hosct, hinvc, hemround, hem, List.cons_append]
  rw [oaepDecrypt_cons ⟨n, d, k⟩ (toBytesBE k c) 0 (maskedSeed ++ maskedDB)
    hguard2 hshape]
  have htake : (maskedSeed ++ maskedDB).take 32 = maskedSeed :=
    List.take_left' hmSlen
  have hdrop : (maskedSeed ++ maskedDB).drop 32 = maskedDB :=
    List.drop_left' hmSlen
  simp only [htake, hdrop]
  rw [← hsM, hmS]
  rw [xorBytes_cancel seed seedMask (by omega)]
  rw [← hdbM, hmDB]
  rw [xorBytes_cancel db dbMask (by omega)]
  rw [hdb, List.append_assoc]
  rw [List.take_left' (sha256_length []), List.drop_left' (sha256_length []),
    dropWhile_zeros]
  show (if (0 : Nat) = 0 ∧ sha256 [] = sha256 [] then some msg else none) =
    some msg
  rw [if_pos ⟨rfl, rfl⟩]

/-- The bytes returned by `oaepEncrypt` are bytes. -/
theorem oaepEncrypt_bytes (key : RSAPub) (msg seed ct : List Nat)
    (h : oaepEncrypt key msg seed = some ct) : ∀ b ∈ ct, b < 256 := by
  unfold oaepEncrypt at h
  by_cases hg : key.k < msg.length + 2 * 32 + 2
  · rw [if_pos hg] at h
    cases h
  · rw [if_neg hg] at h
    obtain rfl := Option.some.inj h
    exact toBytesBE_lt _ _

/-- `rsa_oaep_decrypt` succeeds when both stages succeed. -/
theorem rsa_oaep_decrypt_of (key : RSAPriv) (s : String) (ct m : List Nat)
    (h1 : b64decodePy s = some ct) (h2 : oaepDecrypt key ct = some m) :
    rsa_oaep_decrypt key s = Except.ok m := by
  unfold rsa_oaep_decrypt
  rw [h1]
  show (match oaepDecrypt key ct with
    | none => Except.error CryptoErr.decryptionFailed
    | some m => Except.ok m) = Except.ok m
  rw [h2]

set_option maxRecDepth 4000000 in
/-- C8: RSA-OAEP round trip.  For every 32-byte secret `S` and every
matching RSA key pair (primes `p ≠ q`, exponents with `e·d ≡ 1` modulo
both `p-1` and `q-1`, modulus of exactly `k ≥ 130` octets), encrypting
the UTF-8 hex encoding of `S` with the public key
(`rsa_encrypt_with_public`, at any 32-byte OAEP seed) produces a Base64
ciphertext that `rsa_oaep_decrypt` with the private key maps back to
exactly the hex encoding of `S`. -/
theorem rsa_oaep_roundtrip (S seed : List Nat) (p q e d k : Nat)
    (hS : S.length = 32) (hSlt : ∀ b ∈ S, b < 256)
    (hslen : seed.length = 32) (hslt : ∀ b ∈ seed, b < 256)
    (hp : p.Prime) (hq : q.Prime) (hpq : p ≠ q)
    (hed1 : e * d ≡ 1 [MOD p - 1]) (hed2 : e * d ≡ 1 [MOD q - 1])
    (hed0 : 0 < e * d)
    (hk1 : 256 ^ (k - 1) ≤ p * q) (hk2 : p * q < 256 ^ k) (hk3 : 130 ≤ k) :
    ∃ ctB64 : String,
      rsa_encrypt_with_public ⟨p * q, e, k⟩ (asciiBytes (hexOfBytes S)) seed =
        some ctB64 ∧
      rsa_oaep_decrypt ⟨p * q, d, k⟩ ctB64 =
        Except.ok (asciiBytes (hexOfBytes S)) := by
  have hmlen : (asciiBytes (hexOfBytes S)).length = 64 := by
    rw [hexMsg_length, hS]
  have hmlt := hexMsg_lt S hSlt
  have hguard : ¬ (k < (asciiBytes (hexOfBytes S)).length + 2 * 32 + 2) := by
    omega
  obtain ⟨ct, hct⟩ : ∃ ct,
      oaepEncrypt ⟨p * q, e, k⟩ (asciiBytes (hexOfBytes S)) seed = some ct := by
    unfold oaepEncrypt
    rw [if_neg hguard]
    exact ⟨_, rfl⟩
  have hct_lt : ∀ b ∈ ct, b < 256 := oaepEncrypt_bytes _ _ _ _ hct
  have hdec : oaepDecrypt ⟨p * q, d, k⟩ ct = some (asciiBytes (hexOfBytes S)) :=
    oaep_roundtrip_core (p * q) e d k (asciiBytes (hexOfBytes S)) seed
      hmlen hmlt hslen hslt hk3 hk1 hk2
      (fun m hm => rsa_inverts p q e d hp hq hpq hed1 hed2 hed0 m hm) ct hct
  refine ⟨b64encodePy ct, ?_, ?_⟩
  · unfold rsa_encrypt_with_public
    rw [hct]
    rfl
  · exact rsa_oaep_decrypt_of _ _ ct _ (b64decodePy_encodePy ct hct_lt) hdec

set_option maxRecDepth 1000000 in
/-- Witness: the round-trip theorem applied to the all-zero 32-byte
secret and seed and the concrete 1040-bit key pair built from the Proth
primes `pWit` and `qWit` with `e = 65537` and its inverse `dWit`. -/
theorem rsa_oaep_roundtrip_witness :
    ∃ ctB64 : String,
      rsa_encrypt_with_public ⟨pWit * qWit, eWit, 130⟩
          (asciiBytes (hexOfBytes (List.replicate 32 0)))
          (List.replicate 32 0) =
        some ctB64 ∧
      rsa_oaep_decrypt ⟨pWit * qWit, dWit, 130⟩ ctB64 =
        Except.ok (asciiBytes (hexOfBytes (List.replicate 32 0))) :=
  rsa_oaep_roundtrip (List.replicate 32 0) (List.replicate 32 0)
    pWit qWit eWit dWit 130
    (by decide) (by decide) (by decide) (by decide)
    pWit_prime qWit_prime (by decide)
    (by decide) (by decide) (by decide)
    (by decide) (by decide) (by decide)

end PKI
